import Mathlib

/-!
Verification development for the cpp-effects one-shot effect-handler runtime
(src/include/cpp-effects/cpp-effects.h and clause-modifiers.h).

The runtime is shallowly embedded as a small-step abstract machine.  The
correspondence with the C++ source is:

* `Frame` models `cpp_effects_internals::metaframe`: a label (int64, here
  `Int`), the handler installed at that frame (`none` for the bottom
  sentinel created by `init_metastack`), and an optional suspended fiber.
  As in the source, the frame whose code is currently running holds no
  fiber (`fiber = none`).
* A suspended `ctx::fiber` is modelled by `Fiber`: the client continuation
  `k` that is resumed with the value written into the frame's
  `return_buffer`, the `FinishK` describing what the code belonging to
  that fiber does when it finally returns a value, and a flag `drains`
  recording whether the suspension point sits inside the trampoline drain
  loop of `handle_with` / `resumption_data::resume` (those loops run the
  pending `tail_resumption` before proceeding) or inside
  `command_clause::invoke_command` (which has no drain loop).
* `FinishK` is the defunctionalised "what happens when the running code
  returns": `halt` for the initial fiber, `popRet` for the body of a
  `handle_with` call (pop the handler metaframe, run its return clause,
  deliver the answer to the frame below, lines 775-798), and
  `toFiber fib` for a command clause, whose returned value is written to
  `metastack.front()->return_buffer` and delivered into the fiber that was
  consumed when the dispatch switched to the handler (lines 309-325).
* `Config.store` models the heap of `resumption_data` objects, one slot
  per command-clause activation; `plain` activations reserve the slot but
  never fill it (the plain specialisation allocates no resumption).
  `Config.tail_resumption` is the process-wide trampoline slot
  (line 347), `Config.freshCounter` the static counter of `fresh_label`.
* Client code, handler command clauses and return clauses are modelled as
  values of the deep computation type `Comp`; clause bodies are closures
  over the handler's (immutable) parameters, commands carry an `Int`
  payload and produce an `Int` output.

All definitions are executable; the machine is deterministic.
-/

set_option autoImplicit false

namespace CppEff

/-- Identifier standing for the static C++ type of a command. -/
abbrev CmdTy := Nat

mutual

/-- Deep embedding of client computations: the operations of the public
interface that transfer control through the effect runtime.  Sequencing is
by continuation (`k`). -/
inductive Comp : Type where
  | ret (v : Int)
  | invoke (c : CmdTy) (arg : Int) (k : Int → Comp)
  | invokeLbl (lbl : Int) (c : CmdTy) (arg : Int) (k : Int → Comp)
  | staticInvoke (c : CmdTy) (arg : Int) (k : Int → Comp)
  | staticInvokeLbl (lbl : Int) (c : CmdTy) (arg : Int) (k : Int → Comp)
  | handleC (lbl : Option Int) (h : HandlerDef) (body : Comp) (k : Int → Comp)
  | resumeR (rid : Nat) (v : Int) (k : Int → Comp)
  | tailResumeR (rid : Nat) (v : Int) (k : Int → Comp)

/-- Result of asking a handler for its command clause for a given command
type.  `none` models a failing `dynamic_pointer_cast<can_invoke_command<Cmd>>`;
the other constructors model the `command_clause` specialisations: the
unmodified clause (cpp-effects.h lines 297-338, identical for `no_manage`),
the `plain` clause (clause-modifiers.h lines 46-76, a self-resumptive
function of the command), and the `no_resume` clause (clause-modifiers.h
lines 94-123). -/
inductive ClauseRes : Type where
  | none
  | normal (body : Int → Nat → Comp)
  | plainClause (f : Int → Int)
  | noResumeClause (body : Int → Comp)

/-- A handler definition: the list of command types it declares (used by
`debug_print`), its clause for each command type, and its return clause. -/
inductive HandlerDef : Type where
  | mk (decl : List CmdTy) (clause : CmdTy → ClauseRes) (retClause : Int → Int)

end

def HandlerDef.decl : HandlerDef → List CmdTy
  | .mk d _ _ => d

def HandlerDef.clause : HandlerDef → CmdTy → ClauseRes
  | .mk _ c _ => c

def HandlerDef.retClause : HandlerDef → Int → Int
  | .mk _ _ r => r

mutual

/-- What the code belonging to a fiber does when it returns a value:
`halt` ends the whole program (the initial fiber), `popRet` is the body of
a `handle_with` call (pop the handler frame, run the return clause,
deliver below), `toFiber fib` is a command clause, whose value is
delivered into the fiber `fib` consumed at dispatch time. -/
inductive FinishK : Type where
  | halt
  | popRet
  | toFiber (fib : Fiber)

/-- A suspended fiber: the continuation waiting for the value written into
the owning frame's `return_buffer`, its finish behaviour, and whether its
suspension point runs the tail-resumption drain loop when resumed
(`handle_with` lines 804-811 and `resume` lines 570-575 do; the suspension
inside `command_clause::invoke_command` lines 327-337 does not). -/
inductive Fiber : Type where
  | mk (k : Int → Comp) (fin : FinishK) (drains : Bool)

end

def Fiber.k : Fiber → Int → Comp
  | .mk k _ _ => k

def Fiber.fin : Fiber → FinishK
  | .mk _ f _ => f

def Fiber.drains : Fiber → Bool
  | .mk _ _ d => d

/-- One metaframe (cpp-effects.h lines 225-236): label, installed handler
(`none` only for the bottom sentinel pushed by `init_metastack`), and the
suspended fiber (`none` for the currently running frame). -/
structure Frame : Type where
  label : Int
  hdef : Option HandlerDef
  fiber : Option Fiber

/-- The contents of a `resumption_data` object (lines 371-383): the
captured sub-metastack and the command-result transfer buffer. -/
structure ResData : Type where
  stored_metastack : List Frame
  command_result_buffer : Option Int

/-- One line of diagnostic output printed before `exit(-1)`:
`handlerMissing` is the line naming a label and a command type
(lines 981-982 / 1027-1028), `frameInfo` is one line of
`debug_print_metastack` (label and declared command types of one frame). -/
inductive DiagLine : Type where
  | handlerMissing (lbl : Int) (c : CmdTy)
  | frameInfo (lbl : Int) (decl : List CmdTy)
deriving DecidableEq, Repr

/-- Command types a frame declares, as shown by `debug_print`. -/
def declaredCmds (F : Frame) : List CmdTy :=
  match F.hdef with
  | Option.none => []
  | some h => h.decl

/-- Success of `std::dynamic_pointer_cast<can_invoke_command<Cmd>>` on a
frame: the frame's handler has a command clause for `c`. -/
def declares (F : Frame) (c : CmdTy) : Bool :=
  match F.hdef with
  | Option.none => false
  | some h =>
    match h.clause c with
    | .none => false
    | _ => true

/-- The clause of a frame's handler for command type `c`, if any. -/
def clauseLookup (F : Frame) (c : CmdTy) : ClauseRes :=
  match F.hdef with
  | Option.none => .none
  | some h => h.clause c

/-- Output of `debug_print_metastack` (lines 734-739): one line per frame,
iterating from the top of the metastack downward. -/
def debug_print_metastack (ms : List Frame) : List DiagLine :=
  ms.map (fun F => .frameInfo F.label (declaredCmds F))

/-- Machine configuration: the running computation and its finish
behaviour, the metastack (head = top = innermost handler), the heap of
resumption buffers, the trampoline slot, and the `fresh_label` counter. -/
structure Config : Type where
  cur : Comp
  fin : FinishK
  metastack : List Frame
  store : List (Option ResData)
  tail_resumption : Option Nat
  freshCounter : Int

/-- Result of one machine step: a next configuration, normal termination
of the whole program, process termination via `exit(-1)` after printing
diagnostics, or C++ undefined behaviour. -/
inductive StepRes : Type where
  | next (cfg : Config)
  | done (v : Int)
  | exitFail (diag : List DiagLine)
  | undef

/-- Replace the fiber of the head frame of a list (the effect of
`stored_metastack.front()->fiber = std::move(prev)`). -/
def setHeadFiber (l : List Frame) (fib : Option Fiber) : List Frame :=
  match l with
  | [] => []
  | X :: r => { X with fiber := fib } :: r

/-- Perform the pending tail-resumption (`resumption_data::tail_resume`,
lines 596-607): resume the captured invoke-site fiber with the parked
command result, store the drain-loop performer's fiber `fib` in the
current top frame, and splice the captured frames back on top.  The value
being delivered at the time is discarded: in the C++ it sits in a
`return_buffer` that is overwritten by a later delivery. -/
def performTailResume (rid : Nat) (fib : Fiber) (ms : List Frame)
    (store : List (Option ResData)) (fc : Int) : StepRes :=
  match store[rid]? with
  | some (some rd) =>
    match rd.stored_metastack, rd.command_result_buffer, ms with
    | T :: others, some w, X :: rest =>
      match T.fiber with
      | some tf =>
          .next { cur := tf.k w, fin := tf.fin,
                  metastack := ({ T with fiber := Option.none } :: others)
                               ++ ({ X with fiber := some fib } :: rest),
                  store := store.set rid (some ⟨[], Option.none⟩),
                  tail_resumption := Option.none, freshCounter := fc }
      | Option.none => .undef
    | _, _, _ => .undef
  | _ => StepRes.undef

/-- Deliver a value into a suspended fiber.  If the suspension point runs
the drain loop and a tail-resumption is pending, the pending resumption is
performed first (the delivered value waits in the buffer and is
overwritten); otherwise the fiber's continuation proceeds with the
value. -/
def deliverFib (v : Int) (fib : Fiber) (ms : List Frame)
    (store : List (Option ResData)) (slot : Option Nat) (fc : Int) : StepRes :=
  if fib.drains then
    match slot with
    | some rid => performTailResume rid fib ms store fc
    | Option.none =>
        .next { cur := fib.k v, fin := fib.fin, metastack := ms,
                store := store, tail_resumption := Option.none, freshCounter := fc }
  else
    .next { cur := fib.k v, fin := fib.fin, metastack := ms,
            store := store, tail_resumption := slot, freshCounter := fc }

/-- Deliver a value to the top frame of the metastack: write it to that
frame's `return_buffer` and resume its suspended fiber (which becomes the
running, fiberless frame). -/
def deliverTop (v : Int) (ms : List Frame) (store : List (Option ResData))
    (slot : Option Nat) (fc : Int) : StepRes :=
  match ms with
  | [] => .undef
  | X :: rest =>
    match X.fiber with
    | Option.none => .undef
    | some fib => deliverFib v fib ({ X with fiber := Option.none } :: rest) store slot fc

/-- One `std::swap` of the fibers of the head frames of two lists
(clause-modifiers.h lines 60, 65, 72). -/
def swapHeadFibers : List Frame → List Frame → List Frame × List Frame
  | T :: so, X :: ro =>
      ({ T with fiber := X.fiber } :: so, { X with fiber := T.fiber } :: ro)
  | s, m => (s, m)

/-- Dispatch a command to the handler frame at index `i` of the metastack
(the frame found by `invoke_command`); `c` is the command type, `arg` its
payload, `k` the invoker's continuation.  Mirrors
`command_clause<Answer, Cmd>::invoke_command` (lines 297-338) and the
`plain` / `no_resume` specialisations of clause-modifiers.h.  In all three
cases the C++ receives the iterator `std::next(it)`, so the detached or
erased range `[metastack.begin(), std::next(it))` is the frames strictly
above the handler together with the handler's own frame. -/
def dispatchAt (i : Nat) (c : CmdTy) (arg : Int) (k : Int → Comp)
    (cfg : Config) : StepRes :=
  match cfg.metastack[i]? with
  | Option.none => .undef
  | some F =>
    match clauseLookup F c with
    | .none => .undef
    | .normal body =>
      -- rd.stored_metastack.splice(..., metastack.begin(), it): capture
      -- frames 0..i into the resumption buffer, then store the invoker's
      -- fiber in the captured top frame (line 311).
      let stored := setHeadFiber (cfg.metastack.take (i+1))
                      (some (Fiber.mk k cfg.fin false))
      let rid := cfg.store.length
      match cfg.metastack.drop (i+1) with
      | [] => .undef
      | X :: rest =>
        match X.fiber with
        | Option.none => .undef
        | some retFib =>
          -- metastack.front()->fiber is moved out and resumed; the clause
          -- runs injected on it and its return value is delivered into it.
          .next { cur := body arg rid, fin := .toFiber retFib,
                  metastack := { X with fiber := Option.none } :: rest,
                  store := cfg.store ++ [some ⟨stored, Option.none⟩],
                  tail_resumption := cfg.tail_resumption,
                  freshCounter := cfg.freshCounter }
    | .plainClause f =>
      -- splice out, swap fibers, run the clause as a function, swap back,
      -- splice back (clause-modifiers.h lines 56-74).  No resumption is
      -- allocated: the activation's store slot stays empty.
      let stored := cfg.metastack.take (i+1)
      let rest := cfg.metastack.drop (i+1)
      let p1 := swapHeadFibers stored rest
      let a := f arg
      let p2 := swapHeadFibers p1.1 p1.2
      .next { cur := k a, fin := cfg.fin,
              metastack := p2.1 ++ p2.2,
              store := cfg.store ++ [Option.none],
              tail_resumption := cfg.tail_resumption,
              freshCounter := cfg.freshCounter }
    | .noResumeClause body =>
      -- metastack.erase(metastack.begin(), it): frames 0..i are discarded
      -- outright (their resources released); the clause gets no
      -- resumption and the invoker's continuation k is dropped.
      match cfg.metastack.drop (i+1) with
      | [] => .undef
      | X :: rest =>
        match X.fiber with
        | Option.none => .undef
        | some retFib =>
          .next { cur := body arg, fin := .toFiber retFib,
                  metastack := { X with fiber := Option.none } :: rest,
                  store := cfg.store ++ [Option.none],
                  tail_resumption := cfg.tail_resumption,
                  freshCounter := cfg.freshCounter }

/-- Search of the type-based `invoke_command` (lines 992-997): first frame
from the top whose handler declares the command. -/
def findHandlerIdx (ms : List Frame) (c : CmdTy) : Option Nat :=
  ms.findIdx? (fun F => declares F c)

/-- Search of the label-based `invoke_command` (`std::find_if`,
lines 974-977): first frame from the top whose label matches. -/
def findLabelIdx (ms : List Frame) (lbl : Int) : Option Nat :=
  ms.findIdx? (fun F => F.label == lbl)

/-- One step of the machine. -/
def step (cfg : Config) : StepRes :=
  match cfg.cur with
  | .ret v =>
    match cfg.fin with
    | .halt => .done v
    | .popRet =>
      -- body of handle_with finished: pop the handler frame
      -- (lines 782-783), run its return clause, deliver the answer to the
      -- frame below (lines 785-793).
      match cfg.metastack with
      | [] => .undef
      | F :: rest =>
        match F.hdef with
        | Option.none => .undef
        | some h => deliverTop (h.retClause v) rest cfg.store cfg.tail_resumption cfg.freshCounter
    | .toFiber fib =>
      -- command clause finished without resuming: its value is written to
      -- the top frame's return_buffer and control continues in the fiber
      -- consumed at dispatch (lines 317-324).
      deliverFib v fib cfg.metastack cfg.store cfg.tail_resumption cfg.freshCounter
  | .invoke c arg k =>
    match findHandlerIdx cfg.metastack c with
    | Option.none =>
      -- no handler declares the command: debug_print_metastack();
      -- exit(-1) (lines 998-999).  Note: no line naming the command.
      .exitFail (debug_print_metastack cfg.metastack)
    | some i => dispatchAt i c arg k cfg
  | .invokeLbl lbl c arg k =>
    match findLabelIdx cfg.metastack lbl with
    | Option.none =>
      -- std::find_if returned metastack.end() and line 978 dereferences
      -- it: undefined behaviour.
      .undef
    | some i =>
      match cfg.metastack[i]? with
      | Option.none => .undef
      | some F =>
        if declares F c then dispatchAt i c arg k cfg
        else
          -- the labelled frame does not handle the command: print the
          -- line naming the label and the command, the metastack dump,
          -- and exit(-1) (lines 981-984).
          .exitFail (.handlerMissing lbl c :: debug_print_metastack cfg.metastack)
  | .staticInvoke c arg k =>
    -- static_invoke_command<H> with no label (lines 1033-1040): uses
    -- metastack.begin() and an unchecked static_cast to H.
    match cfg.metastack with
    | [] => .undef
    | F :: _ => if declares F c then dispatchAt 0 c arg k cfg else .undef
  | .staticInvokeLbl lbl c arg k =>
    -- static_invoke_command<H> with a label (lines 1015-1031).
    match findLabelIdx cfg.metastack lbl with
    | Option.none =>
      .exitFail (.handlerMissing lbl c :: debug_print_metastack cfg.metastack)
    | some i =>
      match cfg.metastack[i]? with
      | Option.none => .undef
      | some F => if declares F c then dispatchAt i c arg k cfg else .undef
  | .handleC lblOpt h body k =>
    -- handle / handle_with (lines 743-825): an omitted label is drawn
    -- from fresh_label(); the caller's fiber is stored in the current top
    -- frame and a fresh handler frame is pushed; the body runs next.
    let lbl := match lblOpt with | some l => l | Option.none => cfg.freshCounter - 1
    let fc := match lblOpt with | some _ => cfg.freshCounter | Option.none => cfg.freshCounter - 1
    match cfg.metastack with
    | [] => .undef
    | X :: rest =>
      .next { cur := body, fin := .popRet,
              metastack := ⟨lbl, some h, Option.none⟩ ::
                           { X with fiber := some (Fiber.mk k cfg.fin true) } :: rest,
              store := cfg.store, tail_resumption := cfg.tail_resumption,
              freshCounter := fc }
  | .resumeR rid v k =>
    -- resumption::resume (lines 431-435) and resumption_data::resume
    -- (lines 553-594): write the command result into the buffer, store
    -- the clause's fiber in the current top frame, splice the captured
    -- frames back, continue at the invoke site with the written value.
    match cfg.store[rid]? with
    | some (some rd) =>
      match rd.stored_metastack, cfg.metastack with
      | T :: others, X :: rest =>
        match T.fiber with
        | some tf =>
          .next { cur := tf.k v, fin := tf.fin,
                  metastack := ({ T with fiber := Option.none } :: others)
                               ++ ({ X with fiber := some (Fiber.mk k cfg.fin true) } :: rest),
                  store := cfg.store.set rid (some ⟨[], Option.none⟩),
                  tail_resumption := cfg.tail_resumption,
                  freshCounter := cfg.freshCounter }
        | Option.none => .undef
      | _, _ => .undef
    | _ => .undef
  | .tailResumeR rid v k =>
    -- resumption::tail_resume (lines 609-628): park the command result in
    -- the buffer, store the resumption in the process-wide trampoline
    -- slot, and return a default-constructed dummy answer immediately,
    -- without switching fibers.
    match cfg.store[rid]? with
    | some (some rd) =>
      if rd.stored_metastack.isEmpty then .undef
      else
        .next { cur := k 0, fin := cfg.fin, metastack := cfg.metastack,
                store := cfg.store.set rid
                           (some { rd with command_result_buffer := some v }),
                tail_resumption := some rid,
                freshCounter := cfg.freshCounter }
    | _ => StepRes.undef

/-- Observable outcome of a whole run. -/
inductive FinalRes : Type where
  | value (v : Int)
  | exited (diag : List DiagLine)
  | ub
deriving DecidableEq, Repr

/-- Fuelled iteration of `step`; `none` means the fuel ran out. -/
def run : Nat → Config → Option FinalRes
  | 0, _ => Option.none
  | fuel+1, cfg =>
    match step cfg with
    | .next cfg' => run fuel cfg'
    | .done v => some (.value v)
    | .exitFail d => some (.exited d)
    | .undef => some .ub

/-- The bottom sentinel metaframe pushed once by `init_metastack`
(lines 281-291): label 0, no handler. -/
def init_metaframe : Frame := { label := 0, hdef := Option.none, fiber := Option.none }

/-- Initial configuration for a whole program: the metastack holds exactly
the sentinel, the `fresh_label` counter starts at -1. -/
def initConfig (c : Comp) : Config :=
  { cur := c, fin := .halt, metastack := [init_metaframe], store := [],
    tail_resumption := Option.none, freshCounter := -1 }

/-! ### Model of the resumption object (class `resumption`, lines 385-494)

The machine identifies a captured continuation by its store index; the
`resumption` object of the API is a thin wrapper around a pointer to the
underlying `resumption_data`, modelled here as an optional store index. -/

/-- State of a `resumption<Answer(Out)>` object: the `data` pointer
(line 438), `none` being the null pointer of a consumed or moved-from or
default-constructed object. -/
structure resumption_obj : Type where
  data : Option Nat

/-- Validity predicate `operator bool` (lines 417-420): non-null `data`
whose captured stack's bottom frame holds a live fiber.  The source text
accesses `data->stored_metastack.back().fiber`, a member access through a
`std::shared_ptr` value with `.` instead of `->`; that expression is
ill-formed when the operator is instantiated.  This definition follows the
evident intent `back()->fiber`, the form used at lines 311, 563 and 601. -/
def resumption_operator_bool (store : List (Option ResData)) (r : resumption_obj) : Bool :=
  match r.data with
  | Option.none => false
  | some rid =>
    match store[rid]? with
    | some (some rd) =>
      match rd.stored_metastack.getLast? with
      | some F => F.fiber.isSome
      | Option.none => false
    | _ => false

/-- Validity predicate `operator!` (lines 421-424), with the same `.` for
`->` slip in the source, rendered with the evident intent. -/
def resumption_operator_neg (store : List (Option ResData)) (r : resumption_obj) : Bool :=
  match r.data with
  | Option.none => true
  | some rid =>
    match store[rid]? with
    | some (some rd) =>
      match rd.stored_metastack.getLast? with
      | some F => !F.fiber.isSome
      | Option.none => true
    | _ => true

/-- Move construction / move assignment (lines 393-406): the target takes
the `data` pointer and the source is nulled; result is
(moved-to object, moved-from object). -/
def resumption_move (r : resumption_obj) : resumption_obj × resumption_obj :=
  ({ data := r.data }, { data := Option.none })

/-- Operation `release()` (lines 425-430): hand out the raw pointer and
null the object; result is (released pointer, object afterwards). -/
def resumption_release (r : resumption_obj) : Option Nat × resumption_obj :=
  (r.data, { data := Option.none })

/-- Object-level effect of `resume` (lines 431-435): `resume` calls
`release()` on the object, so afterwards its `data` pointer is null. -/
def resumption_after_resume (r : resumption_obj) : resumption_obj :=
  (resumption_release r).2

/-! ### Model of `fresh_label` (lines 728-732)

The static counter `freshCounter` is an `int64_t` initialised to -1; each
call returns `--freshCounter`.  Decrementing past INT64_MIN would be
signed overflow, i.e. undefined behaviour, modelled by `none`. -/

def int64_min : Int := -(2^63)

/-- One call of `fresh_label` on a given counter state: the returned label
and the new counter state. -/
def fresh_label (freshCounter : Int) : Option (Int × Int) :=
  if int64_min < freshCounter then some (freshCounter - 1, freshCounter - 1)
  else Option.none

/-- Counter state after `n` calls of `fresh_label` from process start. -/
def freshCounterAfter : Nat → Option Int
  | 0 => some (-1)
  | n+1 =>
    match freshCounterAfter n with
    | Option.none => Option.none
    | some c => (fresh_label c).map Prod.snd

/-- Value returned by the `n`-th call of `fresh_label` (0-based). -/
def freshLabelValue (n : Nat) : Option Int :=
  match freshCounterAfter n with
  | Option.none => Option.none
  | some c => (fresh_label c).map Prod.fst

/-! ### Sample handlers used by the concrete witnesses -/

/-- A reader-style handler for command type `c0` that resumes every
invocation with the fixed value `val`. -/
def sampleReader (c0 : CmdTy) (val : Int) : HandlerDef :=
  .mk [c0]
    (fun c => if c == c0 then .normal (fun _ rid => .resumeR rid val (fun ans => .ret ans))
              else .none)
    (fun v => v)

/-- A metaframe carrying a `sampleReader` handler, with no suspended
fiber. -/
def sampleFrame (lbl : Int) (c0 : CmdTy) (val : Int) : Frame :=
  { label := lbl, hdef := some (sampleReader c0 val), fiber := Option.none }

/-! ### Generic lemmas about the search of the dispatch engine -/

lemma findIdx?_of_first {α : Type} (p : α → Bool) (l : List α) (i : Nat) (x : α)
    (hx : l[i]? = some x) (hpx : p x = true)
    (hfirst : ∀ j y, j < i → l[j]? = some y → p y = false) :
    l.findIdx? p = some i := by
  have hi : i < l.length := by
    by_contra hcon
    rw [List.getElem?_eq_none (le_of_not_lt hcon)] at hx
    exact Option.noConfusion hx
  rw [List.getElem?_eq_getElem hi] at hx
  rw [List.findIdx?_eq_some_iff_findIdx_eq]
  refine ⟨hi, (List.findIdx_eq hi).mpr ⟨?_, ?_⟩⟩
  · cases hx; exact hpx
  · intro j hj
    exact hfirst j _ hj (List.getElem?_eq_getElem (lt_trans hj hi))

/-! ### Claim C1 -/

/-- Claim C1: for every command value and every metastack containing at
least one metaframe whose handler declares the command's type, the
type-based `invoke_command` dispatches to the topmost such metaframe: the
engine scans the metastack from the top (innermost handler, head of the
list) downward, the frame it selects declares the command, every frame
strictly above it does not, and the step taken is exactly the dispatch to
that frame's command clause. -/
theorem C1_invoke_command_dispatches_to_topmost
    (cfg : Config) (c : CmdTy) (arg : Int) (k : Int → Comp)
    (hcur : cfg.cur = Comp.invoke c arg k)
    (hex : ∃ F ∈ cfg.metastack, declares F c = true) :
    ∃ i F, findHandlerIdx cfg.metastack c = some i
      ∧ cfg.metastack[i]? = some F
      ∧ declares F c = true
      ∧ (∀ j G, j < i → cfg.metastack[j]? = some G → declares G c = false)
      ∧ step cfg = dispatchAt i c arg k cfg := by
  have hfind : cfg.metastack.findIdx? (fun F => declares F c)
      = some (cfg.metastack.findIdx (fun F => declares F c)) :=
    List.findIdx?_eq_some_of_exists hex
  have hlt : cfg.metastack.findIdx (fun F => declares F c) < cfg.metastack.length :=
    List.findIdx_lt_length_of_exists hex
  refine ⟨_, _, hfind, List.getElem?_eq_getElem hlt, ?_, ?_, ?_⟩
  · exact List.findIdx_getElem (w := hlt)
  · intro j G hj hG
    have hjlt : j < cfg.metastack.length := lt_trans hj hlt
    rw [List.getElem?_eq_getElem hjlt] at hG
    cases hG
    exact List.not_of_lt_findIdx hj
  · simp only [step, hcur, findHandlerIdx, hfind]

/-- Witness configuration for C1: two reader frames for command type 0
above the sentinel; dispatch must pick the topmost (index 0). -/
def C1wcfg : Config :=
  { cur := Comp.invoke 0 5 (fun x => Comp.ret x), fin := .halt,
    metastack := [sampleFrame (-2) 0 11, sampleFrame (-3) 0 22, init_metaframe],
    store := [], tail_resumption := Option.none, freshCounter := -3 }

theorem C1_witness :
    ∃ i F, findHandlerIdx C1wcfg.metastack 0 = some i
      ∧ C1wcfg.metastack[i]? = some F
      ∧ declares F 0 = true
      ∧ (∀ j G, j < i → C1wcfg.metastack[j]? = some G → declares G 0 = false)
      ∧ step C1wcfg = dispatchAt i 0 5 (fun x => Comp.ret x) C1wcfg :=
  C1_invoke_command_dispatches_to_topmost C1wcfg 0 5 (fun x => Comp.ret x) rfl
    ⟨sampleFrame (-2) 0 11, by simp [C1wcfg], rfl⟩

/-! ### Claim C5 -/

/-- Claim C5: for every metastack containing a metaframe with label `L`
that declares command type `c` (and no frame nearer the top carrying the
same label), the label-based `invoke_command L` dispatches exactly to that
frame, regardless of whether metaframes nearer the top of the metastack
also declare `c`: no hypothesis restricts the frames above, so nesting
depth and intervening same-type handlers never change the target. -/
theorem C5_label_dispatch_targets_exact_frame
    (cfg : Config) (L : Int) (c : CmdTy) (arg : Int) (k : Int → Comp)
    (i : Nat) (F : Frame)
    (hcur : cfg.cur = Comp.invokeLbl L c arg k)
    (hF : cfg.metastack[i]? = some F)
    (hlab : F.label = L)
    (hfirst : ∀ j G, j < i → cfg.metastack[j]? = some G → G.label ≠ L)
    (hdecl : declares F c = true) :
    findLabelIdx cfg.metastack L = some i ∧ step cfg = dispatchAt i c arg k cfg := by
  have hfind : findLabelIdx cfg.metastack L = some i := by
    refine findIdx?_of_first _ _ i F hF ?_ ?_
    · simp [hlab]
    · intro j G hj hG
      simp only [beq_eq_false_iff_ne, ne_eq]
      exact hfirst j G hj hG
  refine ⟨hfind, ?_⟩
  simp only [step, hcur]
  rw [hfind]
  simp [hF, hdecl]

/-- Witness configuration for C5: the top frame handles command 0 with
label -2; below it a frame with label 7 also handles command 0; label
dispatch on 7 must reach the deeper frame (index 1). -/
def C5wcfg : Config :=
  { cur := Comp.invokeLbl 7 0 3 (fun x => Comp.ret x), fin := .halt,
    metastack := [sampleFrame (-2) 0 11, sampleFrame 7 0 22, init_metaframe],
    store := [], tail_resumption := Option.none, freshCounter := -3 }

/-! ### Inversion lemmas: the fresh-label counter through one step -/

lemma performTailResume_fc {rid : Nat} {fib : Fiber} {ms : List Frame}
    {store : List (Option ResData)} {fc : Int} {cfg' : Config}
    (h : performTailResume rid fib ms store fc = .next cfg') :
    cfg'.freshCounter = fc := by
  unfold performTailResume at h
  repeat' split at h
  all_goals first
    | exact StepRes.noConfusion h
    | (injection h with h2; subst h2; rfl)

lemma deliverFib_fc {v : Int} {fib : Fiber} {ms : List Frame}
    {store : List (Option ResData)} {slot : Option Nat} {fc : Int} {cfg' : Config}
    (h : deliverFib v fib ms store slot fc = .next cfg') :
    cfg'.freshCounter = fc := by
  unfold deliverFib at h
  repeat' split at h
  all_goals first
    | exact performTailResume_fc h
    | exact StepRes.noConfusion h
    | (injection h with h2; subst h2; rfl)

lemma deliverTop_fc {v : Int} {ms : List Frame} {store : List (Option ResData)}
    {slot : Option Nat} {fc : Int} {cfg' : Config}
    (h : deliverTop v ms store slot fc = .next cfg') :
    cfg'.freshCounter = fc := by
  unfold deliverTop at h
  repeat' split at h
  all_goals first
    | exact deliverFib_fc h
    | exact StepRes.noConfusion h

lemma dispatchAt_fc {i : Nat} {c : CmdTy} {arg : Int} {k : Int → Comp}
    {cfg : Config} {cfg' : Config}
    (h : dispatchAt i c arg k cfg = .next cfg') :
    cfg'.freshCounter = cfg.freshCounter := by
  unfold dispatchAt at h
  repeat' split at h
  all_goals first
    | exact StepRes.noConfusion h
    | (injection h with h2; subst h2; rfl)

lemma step_fc {cfg cfg' : Config} (h : step cfg = .next cfg') :
    cfg'.freshCounter = cfg.freshCounter ∨ cfg'.freshCounter = cfg.freshCounter - 1 := by
  unfold step at h
  repeat' split at h
  all_goals first
    | exact StepRes.noConfusion h
    | exact Or.inl (deliverFib_fc h)
    | exact Or.inl (deliverTop_fc h)
    | exact Or.inl (dispatchAt_fc h)
    | exact Or.inl (performTailResume_fc h)
    | (injection h with h2; subst h2; first | exact Or.inl rfl | exact Or.inr rfl)

theorem C5_witness :
    findLabelIdx C5wcfg.metastack 7 = some 1
      ∧ step C5wcfg = dispatchAt 1 0 3 (fun x => Comp.ret x) C5wcfg :=
  C5_label_dispatch_targets_exact_frame C5wcfg 7 0 3 (fun x => Comp.ret x) 1
    (sampleFrame 7 0 22) rfl rfl rfl
    (by intro j G hj hG
        interval_cases j
        · simp [C5wcfg] at hG
          rw [← hG]
          decide)
    rfl

/-! ### Claim C4 (corrected) -/

/-- Predicate: a diagnostic line names the given command type. -/
def namesCmd (c : CmdTy) : DiagLine → Bool
  | .handlerMissing _ c' => c' == c
  | .frameInfo _ _ => false

/-- Counterexample to claim C4 as stated: invoking command type 5 on the
metastack holding only the sentinel makes the type-based `invoke_command`
terminate the process, but the diagnostic output it prints is only the
metastack dump — it contains no line naming the missing command's type
(cpp-effects.h lines 987-1000 print `debug_print_metastack()` and call
`exit(-1)` with no preceding message, unlike the label-based form at
lines 981-982). -/
theorem C4_counterexample :
    step { cur := Comp.invoke 5 0 (fun x => Comp.ret x), fin := .halt,
           metastack := [init_metaframe], store := [],
           tail_resumption := Option.none, freshCounter := -1 }
      = .exitFail [DiagLine.frameInfo 0 []]
    ∧ (List.filter (namesCmd 5) [DiagLine.frameInfo 0 []]) = [] := by
  exact ⟨rfl, rfl⟩

/-- Claim C4 as amended: a failed dispatch terminates the process with the
non-zero status of `exit(-1)` (modelled by `StepRes.exitFail`), but the
printed diagnostics depend on the form of dispatch: (1) the type-based
`invoke_command` with no declaring metaframe prints only the metastack
dump, with no line naming the command's type; (2) the label-based
`invoke_command` whose labelled frame exists but does not declare the
command prints a line naming the label and the command's type followed by
the dump; (3) the label-based `invoke_command` with no frame carrying the
label dereferences the end iterator returned by `std::find_if`
(line 978), which is undefined behaviour, not a diagnostic exit.  In all
terminating cases no value is returned and no exception is thrown. -/
theorem C4_amended_failed_dispatch
    (cfg : Config) (lbl : Int) (c : CmdTy) (arg : Int) (k : Int → Comp) :
    (cfg.cur = Comp.invoke c arg k →
      (∀ F ∈ cfg.metastack, declares F c = false) →
      step cfg = .exitFail (debug_print_metastack cfg.metastack))
    ∧ (∀ i F, cfg.cur = Comp.invokeLbl lbl c arg k →
        findLabelIdx cfg.metastack lbl = some i →
        cfg.metastack[i]? = some F →
        declares F c = false →
        step cfg = .exitFail
          (.handlerMissing lbl c :: debug_print_metastack cfg.metastack))
    ∧ (cfg.cur = Comp.invokeLbl lbl c arg k →
        (∀ F ∈ cfg.metastack, F.label ≠ lbl) →
        step cfg = .undef) := by
  refine ⟨?_, ?_, ?_⟩
  · intro hcur hall
    have hnone : cfg.metastack.findIdx? (fun F => declares F c) = Option.none := by
      rw [List.findIdx?_eq_none_iff]
      intro F hF
      simp [hall F hF]
    simp only [step, hcur, findHandlerIdx]
    rw [hnone]
  · intro i F hcur hfind hF hnd
    simp only [step, hcur]
    rw [show findLabelIdx cfg.metastack lbl = some i from hfind]
    simp [hF, hnd]
  · intro hcur hall
    have hnone : cfg.metastack.findIdx? (fun F => F.label == lbl) = Option.none := by
      rw [List.findIdx?_eq_none_iff]
      intro F hF
      simp [hall F hF]
    simp only [step, hcur, findLabelIdx]
    rw [hnone]

/-- Concrete inputs for the three cases of the amended C4: a sentinel-only
metastack for the type-based miss, a labelled reader frame that does not
declare command 9 for the second case, and a fresh label 8 for the
undefined label case. -/
theorem C4_witness :
    (step { cur := Comp.invoke 5 0 (fun x => Comp.ret x), fin := .halt,
            metastack := [init_metaframe], store := [],
            tail_resumption := Option.none, freshCounter := -1 }
       = .exitFail (debug_print_metastack [init_metaframe]))
    ∧ (step { cur := Comp.invokeLbl 7 9 0 (fun x => Comp.ret x), fin := .halt,
              metastack := [sampleFrame 7 0 1, init_metaframe], store := [],
              tail_resumption := Option.none, freshCounter := -1 }
       = .exitFail (.handlerMissing 7 9 ::
            debug_print_metastack [sampleFrame 7 0 1, init_metaframe]))
    ∧ (step { cur := Comp.invokeLbl 8 0 0 (fun x => Comp.ret x), fin := .halt,
              metastack := [sampleFrame 7 0 1, init_metaframe], store := [],
              tail_resumption := Option.none, freshCounter := -1 }
       = .undef) := by
  refine ⟨?_, ?_, ?_⟩
  · exact (C4_amended_failed_dispatch _ 0 5 0 (fun x => Comp.ret x)).1 rfl
      (by intro F hF; simp at hF; subst hF; rfl)
  · exact (C4_amended_failed_dispatch _ 7 9 0 (fun x => Comp.ret x)).2.1 0
      (sampleFrame 7 0 1) rfl rfl rfl rfl
  · exact (C4_amended_failed_dispatch _ 8 0 0 (fun x => Comp.ret x)).2.2 rfl
      (by intro F hF
          simp [sampleFrame, init_metaframe] at hF
          rcases hF with h | h <;> simp [h, sampleFrame, init_metaframe])

/-! ### Claim C10 -/

lemma freshCounterAfter_some {n : Nat} {c : Int}
    (h : freshCounterAfter n = some c) : c = -1 - (n : Int) := by
  induction n generalizing c with
  | zero =>
    simp [freshCounterAfter] at h
    omega
  | succ m ih =>
    rw [freshCounterAfter] at h
    cases hm : freshCounterAfter m with
    | none => rw [hm] at h; exact Option.noConfusion h
    | some d =>
      rw [hm] at h
      have hd := ih hm
      unfold fresh_label at h
      by_cases hlt : int64_min < d
      · simp [hlt] at h
        push_cast
        omega
      · simp [hlt] at h

lemma freshLabelValue_some {n : Nat} {v : Int}
    (h : freshLabelValue n = some v) : v = -2 - (n : Int) := by
  unfold freshLabelValue at h
  cases hm : freshCounterAfter n with
  | none => rw [hm] at h; exact Option.noConfusion h
  | some c =>
    rw [hm] at h
    have hc := freshCounterAfter_some hm
    unfold fresh_label at h
    by_cases hlt : int64_min < c
    · simp [hlt] at h
      omega
    · simp [hlt] at h

lemma freshCounterAfter_defined {n : Nat} (h : (n : Int) < 2^63 - 1) :
    freshCounterAfter n = some (-1 - (n : Int)) := by
  induction n with
  | zero => simp [freshCounterAfter]
  | succ m ih =>
    have hm : (m : Int) < 2^63 - 1 := by push_cast at h ⊢; omega
    rw [freshCounterAfter, ih hm]
    have hlt : int64_min < -1 - (m : Int) := by
      unfold int64_min; push_cast at h; omega
    simp [fresh_label, hlt]
    ring

/-- Claim C10: every call of `fresh_label` returns a strictly negative
label strictly smaller than the previous call's value (the counter starts
at -1 and is decremented before each return), within the range where the
`int64_t` counter is defined; the returned labels are pairwise distinct
and never equal the sentinel label 0 or any positive label.  Moreover
`handle` without an explicit label installs its handler under the freshly
decremented counter value, which is strictly negative, and no machine step
ever makes the counter non-negative. -/
theorem C10_fresh_labels
    (n m : Nat) (cfg : Config) (h : HandlerDef) (body : Comp) (k : Int → Comp) :
    ((n : Int) < 2^63 - 1 → freshLabelValue n = some (-2 - (n : Int)))
    ∧ (∀ v, freshLabelValue n = some v → v < 0 ∧ v ≠ 0 ∧ ¬ (0 < v))
    ∧ (∀ v w, freshLabelValue n = some v → freshLabelValue (n+1) = some w → w < v)
    ∧ (∀ v w, m ≠ n → freshLabelValue m = some v → freshLabelValue n = some w → v ≠ w)
    ∧ (cfg.cur = Comp.handleC Option.none h body k →
        cfg.freshCounter < 0 →
        ∀ X rest, cfg.metastack = X :: rest →
        ∃ cfg2, step cfg = .next cfg2
          ∧ cfg2.metastack.head? = some ⟨cfg.freshCounter - 1, some h, Option.none⟩
          ∧ cfg.freshCounter - 1 < 0
          ∧ cfg2.freshCounter = cfg.freshCounter - 1)
    ∧ ((initConfig body).freshCounter < 0)
    ∧ (∀ cfg', cfg.freshCounter < 0 → step cfg = .next cfg' →
        cfg'.freshCounter < 0) := by
  refine ⟨?_, ?_, ?_, ?_, ?_, ?_, ?_⟩
  · intro hlt
    have hc := freshCounterAfter_defined hlt
    have hlt2 : int64_min < -1 - (n : Int) := by unfold int64_min; omega
    unfold freshLabelValue
    rw [hc]
    simp [fresh_label, hlt2]
    ring
  · intro v hv
    have := freshLabelValue_some hv
    omega
  · intro v w hv hw
    have hv2 := freshLabelValue_some hv
    have hw2 := freshLabelValue_some hw
    omega
  · intro v w hmn hv hw
    have hv2 := freshLabelValue_some hv
    have hw2 := freshLabelValue_some hw
    intro hvw
    apply hmn
    omega
  · intro hcur hneg X rest hms
    refine ⟨{ cur := body, fin := .popRet,
              metastack := ⟨cfg.freshCounter - 1, some h, Option.none⟩ ::
                { X with fiber := some (Fiber.mk k cfg.fin true) } :: rest,
              store := cfg.store, tail_resumption := cfg.tail_resumption,
              freshCounter := cfg.freshCounter - 1 }, ?_, rfl, by omega, rfl⟩
    simp only [step, hcur, hms]
  · norm_num [initConfig]
  · intro cfg' hneg hstep
    rcases step_fc hstep with h2 | h2 <;> omega

/-- Witness configuration for C10: a `handle` call with no explicit label
on the initial metastack. -/
def C10wcfg : Config :=
  { cur := Comp.handleC Option.none (sampleReader 0 1) (Comp.ret 0) (fun x => Comp.ret x),
    fin := .halt, metastack := [init_metaframe], store := [],
    tail_resumption := Option.none, freshCounter := -1 }

theorem C10_witness :
    freshLabelValue 3 = some (-2 - (3 : Int))
    ∧ ((-5 : Int) < 0 ∧ (-5 : Int) ≠ 0 ∧ ¬ ((0 : Int) < -5))
    ∧ ((-6 : Int) < -5)
    ∧ ((-6 : Int) ≠ -5)
    ∧ (∃ cfg2, step C10wcfg = .next cfg2
        ∧ cfg2.metastack.head? = some ⟨C10wcfg.freshCounter - 1,
            some (sampleReader 0 1), Option.none⟩
        ∧ C10wcfg.freshCounter - 1 < 0
        ∧ cfg2.freshCounter = C10wcfg.freshCounter - 1)
    ∧ ((initConfig (Comp.ret 0)).freshCounter < 0) := by
  obtain ⟨h1, h2, h3, h4, h5, h6, _⟩ :=
    C10_fresh_labels 3 4 C10wcfg (sampleReader 0 1) (Comp.ret 0) (fun x => Comp.ret x)
  have e3 : freshLabelValue 3 = some (-5) := by
    have := h1 (by norm_num)
    norm_num at this ⊢
    exact this
  have e4 : freshLabelValue 4 = some (-6) := by
    obtain ⟨g1, _, _, _, _, _, _⟩ :=
      C10_fresh_labels 4 3 C10wcfg (sampleReader 0 1) (Comp.ret 0) (fun x => Comp.ret x)
    have := g1 (by norm_num)
    norm_num at this ⊢
    exact this
  refine ⟨by norm_num [e3], h2 (-5) e3, h3 (-5) (-6) e3 e4,
          h4 (-6) (-5) (by norm_num) e4 e3, ?_, h6⟩
  exact h5 rfl (by norm_num [C10wcfg]) init_metaframe [] rfl

/-! ### Claim C3 -/

/-- Claim C3, proved of the evident intent of the source (the operators as
written in the source access a member through a `std::shared_ptr` with `.`
instead of `->` and do not compile when instantiated, which is why C3 is
reported as a code bug): at the object level a resumption is single-use:
after `resume` (which goes through `release()`), after being moved from,
and after `release()`, the object's `data` pointer is null and the
validity predicates `operator bool` / `operator!` report invalid, so a
second resume attempt is detectable before it is made; a resumption whose
`data` points to a captured stack whose bottom frame holds a live fiber
reports valid. -/
theorem C3_resumption_single_use
    (store : List (Option ResData)) (r : resumption_obj) :
    resumption_operator_bool store (resumption_after_resume r) = false
    ∧ resumption_operator_neg store (resumption_after_resume r) = true
    ∧ resumption_operator_bool store (resumption_move r).2 = false
    ∧ resumption_operator_neg store (resumption_move r).2 = true
    ∧ resumption_operator_bool store (resumption_release r).2 = false
    ∧ (resumption_after_resume r).data = Option.none
    ∧ resumption_operator_bool
        [some ⟨[⟨0, Option.none, some (Fiber.mk (fun v => Comp.ret v) .popRet false)⟩],
               Option.none⟩]
        ⟨some 0⟩ = true :=
  ⟨rfl, rfl, rfl, rfl, rfl, rfl, rfl⟩

/-! ### Claim C2 -/

lemma setHeadFiber_length (l : List Frame) (f : Option Fiber) :
    (setHeadFiber l f).length = l.length := by
  cases l <;> rfl

lemma setHeadFiber_getElem?_of_pos (l : List Frame) (f : Option Fiber)
    {j : Nat} (hj : 1 ≤ j) : (setHeadFiber l f)[j]? = l[j]? := by
  cases l with
  | nil => rfl
  | cons a t =>
    cases j with
    | zero => omega
    | succ m => rfl

/-- Claim C2: on a dispatch hit for an unmodified command clause, the
engine (a) detaches the metaframes strictly above the target handler —
together with the handler's own metaframe, cf. the source comment at
lines 963-966 — from the metastack into a freshly allocated resumption,
storing the invoker's continuation as the fiber of the detached top frame;
(b) transfers control into the handler's fiber (the suspended fiber of the
frame just below the handler, on which the handler's `handle_with`
executes): the clause body becomes the running computation and its finish
is directed into that consumed fiber; (c) if the clause returns a value
without resuming, that value is delivered into the handler's caller's
continuation (the enclosing handle call returns the clause's value) and
the invoker's continuation `k` is not run — it survives only inside the
stored resumption; (d) the invoke site is reached again exactly when the
clause resumes the resumption, in which case the invoker's continuation
`k` receives the value passed to resume and the detached frames are
spliced back onto the metastack. -/
theorem C2_dispatch_hit_steps
    (cfg : Config) (c : CmdTy) (arg : Int) (k : Int → Comp)
    (i : Nat) (F : Frame) (body : Int → Nat → Comp)
    (X : Frame) (rest : List Frame) (retFib : Fiber)
    (hcur : cfg.cur = Comp.invoke c arg k)
    (hfind : findHandlerIdx cfg.metastack c = some i)
    (hF : cfg.metastack[i]? = some F)
    (hcl : clauseLookup F c = .normal body)
    (hdrop : cfg.metastack.drop (i+1) = X :: rest)
    (hXf : X.fiber = some retFib) :
    step cfg = .next
      { cur := body arg cfg.store.length, fin := .toFiber retFib,
        metastack := { X with fiber := Option.none } :: rest,
        store := cfg.store ++
          [some ⟨setHeadFiber (cfg.metastack.take (i+1))
                   (some (Fiber.mk k cfg.fin false)), Option.none⟩],
        tail_resumption := cfg.tail_resumption, freshCounter := cfg.freshCounter }
    ∧ (setHeadFiber (cfg.metastack.take (i+1)) (some (Fiber.mk k cfg.fin false))).length
        = i + 1
    ∧ (∀ j, 1 ≤ j → j ≤ i →
        (setHeadFiber (cfg.metastack.take (i+1)) (some (Fiber.mk k cfg.fin false)))[j]?
          = cfg.metastack[j]?)
    ∧ (∃ G, cfg.metastack[0]? = some G
        ∧ (setHeadFiber (cfg.metastack.take (i+1)) (some (Fiber.mk k cfg.fin false)))[0]?
            = some { G with fiber := some (Fiber.mk k cfg.fin false) })
    ∧ (∀ A, body arg cfg.store.length = Comp.ret A →
        cfg.tail_resumption = Option.none →
        step { cur := body arg cfg.store.length, fin := .toFiber retFib,
               metastack := { X with fiber := Option.none } :: rest,
               store := cfg.store ++
                 [some ⟨setHeadFiber (cfg.metastack.take (i+1))
                          (some (Fiber.mk k cfg.fin false)), Option.none⟩],
               tail_resumption := cfg.tail_resumption, freshCounter := cfg.freshCounter }
          = .next
            { cur := retFib.k A, fin := retFib.fin,
              metastack := { X with fiber := Option.none } :: rest,
              store := cfg.store ++
                [some ⟨setHeadFiber (cfg.metastack.take (i+1))
                         (some (Fiber.mk k cfg.fin false)), Option.none⟩],
              tail_resumption := Option.none, freshCounter := cfg.freshCounter })
    ∧ (∀ v k2, body arg cfg.store.length = Comp.resumeR cfg.store.length v k2 →
        step { cur := body arg cfg.store.length, fin := .toFiber retFib,
               metastack := { X with fiber := Option.none } :: rest,
               store := cfg.store ++
                 [some ⟨setHeadFiber (cfg.metastack.take (i+1))
                          (some (Fiber.mk k cfg.fin false)), Option.none⟩],
               tail_resumption := cfg.tail_resumption, freshCounter := cfg.freshCounter }
          = .next
            { cur := k v, fin := cfg.fin,
              metastack := setHeadFiber (cfg.metastack.take (i+1)) Option.none
                ++ ({ X with fiber := some (Fiber.mk k2 (.toFiber retFib) true) } :: rest),
              store := List.set
                (cfg.store ++
                  [some ⟨setHeadFiber (cfg.metastack.take (i+1))
                           (some (Fiber.mk k cfg.fin false)), Option.none⟩])
                cfg.store.length (some ⟨[], Option.none⟩),
              tail_resumption := cfg.tail_resumption,
              freshCounter := cfg.freshCounter }) := by
  have hlen : i + 1 < cfg.metastack.length := by
    have := congrArg List.length hdrop
    rw [List.length_drop] at this
    simp at this
    omega
  rcases hms : cfg.metastack with _ | ⟨G, tl⟩
  · rw [hms] at hlen
    simp at hlen
  rw [hms] at hfind hF hdrop hlen
  refine ⟨?_, ?_, ?_, ?_, ?_, ?_⟩
  · simp only [step, hcur, hms]
    rw [show findHandlerIdx (G :: tl) c = some i from hfind]
    simp only [dispatchAt, hF, hcl, hdrop, hXf, hms]
  · rw [setHeadFiber_length, List.length_take]
    simp at hlen ⊢
    omega
  · intro j hj1 hji
    rw [setHeadFiber_getElem?_of_pos _ _ hj1, List.getElem?_take]
    simp at hlen
    rw [if_pos (by omega)]
  · refine ⟨G, by simp, ?_⟩
    rw [List.take_cons (by omega)]
    simp [setHeadFiber]
  · intro A hbody hslot
    simp only [step, hbody, hslot]
    unfold deliverFib
    cases hdr : retFib.drains <;> simp [hdr]
  · intro v k2 hbody
    simp only [step, hbody]
    rw [List.getElem?_concat_length]
    rw [List.take_cons (by omega)]
    rfl

/-- Handler whose clause for command 1 returns 7 without resuming. -/
def sampleAbort : HandlerDef :=
  .mk [1] (fun c => if c == 1 then .normal (fun _ _ => .ret 7) else .none)
    (fun v => v + 1)

/-- Witness configuration A for C2 (clause returns without resuming): an
abort-style handler below a suspended caller fiber. -/
def C2wcfgA : Config :=
  { cur := Comp.invoke 1 0 (fun x => Comp.ret x), fin := .popRet,
    metastack := [⟨-2, some sampleAbort, Option.none⟩,
                  { init_metaframe with
                    fiber := some (Fiber.mk (fun v => Comp.ret v) .halt true) }],
    store := [], tail_resumption := Option.none, freshCounter := -2 }

/-- Witness configuration B for C2 (clause resumes): a reader handler. -/
def C2wcfgB : Config :=
  { cur := Comp.invoke 0 0 (fun x => Comp.ret x), fin := .popRet,
    metastack := [sampleFrame (-2) 0 11,
                  { init_metaframe with
                    fiber := some (Fiber.mk (fun v => Comp.ret v) .halt true) }],
    store := [], tail_resumption := Option.none, freshCounter := -2 }

theorem C2_witness :
    (∃ cfg1, step C2wcfgA = .next cfg1
      ∧ step cfg1 = .next
          { cur := Comp.ret 7, fin := .halt,
            metastack := [{ init_metaframe with fiber := Option.none }],
            store := cfg1.store, tail_resumption := Option.none,
            freshCounter := -2 })
    ∧ (∃ cfg2 cfg3, step C2wcfgB = .next cfg2 ∧ step cfg2 = .next cfg3
        ∧ cfg3.cur = Comp.ret 11 ∧ cfg3.fin = C2wcfgB.fin) := by
  constructor
  · obtain ⟨h1, _, _, _, hret, _⟩ :=
      C2_dispatch_hit_steps C2wcfgA 1 0 (fun x => Comp.ret x) 0
        ⟨-2, some sampleAbort, Option.none⟩ (fun _ _ => Comp.ret 7)
        { init_metaframe with fiber := some (Fiber.mk (fun v => Comp.ret v) .halt true) }
        [] (Fiber.mk (fun v => Comp.ret v) .halt true)
        rfl rfl rfl rfl rfl rfl
    exact ⟨_, h1, hret 7 rfl rfl⟩
  · obtain ⟨h1, _, _, _, _, hres⟩ :=
      C2_dispatch_hit_steps C2wcfgB 0 0 (fun x => Comp.ret x) 0
        (sampleFrame (-2) 0 11)
        (fun _ rid => Comp.resumeR rid 11 (fun ans => Comp.ret ans))
        { init_metaframe with fiber := some (Fiber.mk (fun v => Comp.ret v) .halt true) }
        [] (Fiber.mk (fun v => Comp.ret v) .halt true)
        rfl rfl rfl rfl rfl rfl
    exact ⟨_, _, h1, hres 11 (fun ans => Comp.ret ans) rfl, rfl, rfl⟩

/-! ### Claim C6 -/

/-- Claim C6: on a dispatch hit for a `no_resume` clause, the engine
erases the metaframes above the handler together with the handler's own
frame from the metastack outright (releasing them — nothing is captured:
the activation's store slot stays empty and no resumption is allocated);
the clause receives only the command (its body takes no resumption
identifier); the invoker's continuation `k` is dropped — the resulting
configuration is the same for every `k`, so no client code between the
invoke site and the handler boundary can ever run again and the
`invoke_command` call never returns to its call site; and when the clause
returns a value, that value is delivered into the handler's caller's
continuation, becoming the answer of the enclosing handle call. -/
theorem C6_no_resume_discards_and_aborts
    (cfg : Config) (c : CmdTy) (arg : Int)
    (i : Nat) (F : Frame) (body : Int → Comp)
    (X : Frame) (rest : List Frame) (retFib : Fiber)
    (hfind : findHandlerIdx cfg.metastack c = some i)
    (hF : cfg.metastack[i]? = some F)
    (hcl : clauseLookup F c = .noResumeClause body)
    (hdrop : cfg.metastack.drop (i+1) = X :: rest)
    (hXf : X.fiber = some retFib) :
    (∀ k, cfg.cur = Comp.invoke c arg k →
      step cfg = .next
        { cur := body arg, fin := .toFiber retFib,
          metastack := { X with fiber := Option.none } :: rest,
          store := cfg.store ++ [Option.none],
          tail_resumption := cfg.tail_resumption, freshCounter := cfg.freshCounter })
    ∧ (∀ A, body arg = Comp.ret A → cfg.tail_resumption = Option.none →
        step { cur := body arg, fin := .toFiber retFib,
               metastack := { X with fiber := Option.none } :: rest,
               store := cfg.store ++ [Option.none],
               tail_resumption := cfg.tail_resumption, freshCounter := cfg.freshCounter }
          = .next
            { cur := retFib.k A, fin := retFib.fin,
              metastack := { X with fiber := Option.none } :: rest,
              store := cfg.store ++ [Option.none],
              tail_resumption := Option.none, freshCounter := cfg.freshCounter }) := by
  constructor
  · intro k hcur
    simp only [step, hcur]
    rw [hfind]
    simp only [dispatchAt, hF, hcl, hdrop, hXf]
  · intro A hbody hslot
    simp only [step, hbody, hslot]
    unfold deliverFib
    cases hdr : retFib.drains <;> simp [hdr]

/-- Handler whose `no_resume` clause for command 1 returns 42. -/
def sampleCatch : HandlerDef :=
  .mk [1] (fun c => if c == 1 then .noResumeClause (fun _ => .ret 42) else .none)
    (fun v => v + 100)

/-- Witness configuration for C6: a reader frame sits above the
`no_resume` handler (index 1); both get discarded by the dispatch. -/
def C6wcfg : Config :=
  { cur := Comp.invoke 1 0 (fun x => Comp.ret (x + 1)), fin := .popRet,
    metastack := [sampleFrame (-3) 0 5, ⟨-2, some sampleCatch, Option.none⟩,
                  { init_metaframe with
                    fiber := some (Fiber.mk (fun v => Comp.ret v) .halt true) }],
    store := [], tail_resumption := Option.none, freshCounter := -3 }

theorem C6_witness :
    (step C6wcfg = .next
      { cur := Comp.ret 42, fin := .toFiber (Fiber.mk (fun v => Comp.ret v) .halt true),
        metastack := [{ init_metaframe with fiber := Option.none }],
        store := [Option.none], tail_resumption := Option.none, freshCounter := -3 })
    ∧ (step { cur := Comp.ret 42,
              fin := .toFiber (Fiber.mk (fun v => Comp.ret v) .halt true),
              metastack := [{ init_metaframe with fiber := Option.none }],
              store := [Option.none], tail_resumption := Option.none,
              freshCounter := -3 }
        = .next
          { cur := Comp.ret 42, fin := .halt,
            metastack := [{ init_metaframe with fiber := Option.none }],
            store := [Option.none], tail_resumption := Option.none,
            freshCounter := -3 }) := by
  obtain ⟨h1, h2⟩ :=
    C6_no_resume_discards_and_aborts C6wcfg 1 0 1 ⟨-2, some sampleCatch, Option.none⟩
      (fun _ => Comp.ret 42)
      { init_metaframe with fiber := some (Fiber.mk (fun v => Comp.ret v) .halt true) }
      [] (Fiber.mk (fun v => Comp.ret v) .halt true)
      rfl rfl rfl rfl rfl
  exact ⟨h1 (fun x => Comp.ret (x + 1)) rfl, h2 42 rfl rfl⟩

/-! ### Claim C9 -/

/-- Invariant of claim C9 on a metastack: the bottom frame exists and is
the label-0 sentinel with no handler installed. -/
def sentinelAtBottom (ms : List Frame) : Prop :=
  ms.getLast?.map (fun F => (F.label, F.hdef)) = some (0, Option.none)

lemma sentinelAtBottom_ne_nil {ms : List Frame} (h : sentinelAtBottom ms) :
    ms ≠ [] := by
  intro he
  subst he
  simp [sentinelAtBottom] at h

lemma sentinelAtBottom_cons_fiber {X : Frame} {rest : List Frame}
    (f : Option Fiber) (h : sentinelAtBottom (X :: rest)) :
    sentinelAtBottom ({ X with fiber := f } :: rest) := by
  cases rest with
  | nil =>
    simp [sentinelAtBottom] at h ⊢
    exact h
  | cons b t =>
    unfold sentinelAtBottom at h ⊢
    rw [List.getLast?_cons_cons] at h ⊢
    exact h

lemma sentinelAtBottom_append {l1 l2 : List Frame}
    (h : sentinelAtBottom l2) : sentinelAtBottom (l1 ++ l2) := by
  unfold sentinelAtBottom at h ⊢
  rw [List.getLast?_append_of_ne_nil l1 ?_]
  · exact h
  · intro he
    subst he
    simp at h

lemma sentinelAtBottom_drop {ms : List Frame} {n : Nat}
    (h : sentinelAtBottom ms) (hne : ms.drop n ≠ []) :
    sentinelAtBottom (ms.drop n) := by
  unfold sentinelAtBottom at h ⊢
  conv at h => rw [← List.take_append_drop n ms]
  rw [List.getLast?_append_of_ne_nil _ hne] at h
  exact h

lemma sentinelAtBottom_of_cons {F : Frame} {rest : List Frame}
    (h : sentinelAtBottom (F :: rest)) (hne : rest ≠ []) :
    sentinelAtBottom rest := by
  cases rest with
  | nil => exact absurd rfl hne
  | cons b t =>
    unfold sentinelAtBottom at h ⊢
    rw [List.getLast?_cons_cons] at h
    exact h

lemma swapHeadFibers_swapHeadFibers (s m : List Frame) :
    swapHeadFibers (swapHeadFibers s m).1 (swapHeadFibers s m).2 = (s, m) := by
  cases s <;> cases m <;> rfl

lemma performTailResume_sentinel {rid : Nat} {fib : Fiber} {ms : List Frame}
    {store : List (Option ResData)} {fc : Int} {cfg' : Config}
    (hms : sentinelAtBottom ms)
    (h : performTailResume rid fib ms store fc = .next cfg') :
    sentinelAtBottom cfg'.metastack := by
  unfold performTailResume at h
  repeat' split at h
  all_goals first
    | exact StepRes.noConfusion h
    | (injection h with h2
       subst h2
       exact sentinelAtBottom_append (sentinelAtBottom_cons_fiber _ hms))

lemma deliverFib_sentinel {v : Int} {fib : Fiber} {ms : List Frame}
    {store : List (Option ResData)} {slot : Option Nat} {fc : Int} {cfg' : Config}
    (hms : sentinelAtBottom ms)
    (h : deliverFib v fib ms store slot fc = .next cfg') :
    sentinelAtBottom cfg'.metastack := by
  unfold deliverFib at h
  by_cases hd : fib.drains = true
  · rw [if_pos hd] at h
    cases hsl : slot with
    | none =>
      rw [hsl] at h
      injection h with h2
      subst h2
      exact hms
    | some rid =>
      rw [hsl] at h
      exact performTailResume_sentinel hms h
  · rw [if_neg hd] at h
    injection h with h2
    subst h2
    exact hms

lemma deliverTop_sentinel {v : Int} {ms : List Frame}
    {store : List (Option ResData)} {slot : Option Nat} {fc : Int} {cfg' : Config}
    (hms : sentinelAtBottom ms)
    (h : deliverTop v ms store slot fc = .next cfg') :
    sentinelAtBottom cfg'.metastack := by
  unfold deliverTop at h
  repeat' split at h
  all_goals first
    | exact StepRes.noConfusion h
    | exact deliverFib_sentinel (sentinelAtBottom_cons_fiber _ hms) h

lemma dispatchAt_sentinel {i : Nat} {c : CmdTy} {arg : Int} {k : Int → Comp}
    {cfg : Config} {cfg' : Config}
    (hms : sentinelAtBottom cfg.metastack)
    (h : dispatchAt i c arg k cfg = .next cfg') :
    sentinelAtBottom cfg'.metastack := by
  unfold dispatchAt at h
  repeat' split at h
  all_goals first
    | exact StepRes.noConfusion h
    | (injection h with h2
       subst h2
       simp only [swapHeadFibers_swapHeadFibers, List.take_append_drop]
       exact hms)
    | (injection h with h2
       subst h2
       rename_i X rest heqdrop xf retFib heqfib
       have hd := sentinelAtBottom_drop (n := i+1) hms (by rw [heqdrop]; simp)
       rw [heqdrop] at hd
       exact sentinelAtBottom_cons_fiber _ hd)

lemma deliverTop_sentinel' {v : Int} {ms : List Frame} {F : Frame}
    {store : List (Option ResData)} {slot : Option Nat} {fc : Int} {cfg' : Config}
    (hms : sentinelAtBottom (F :: ms))
    (h : deliverTop v ms store slot fc = .next cfg') :
    sentinelAtBottom cfg'.metastack := by
  rcases ms with _ | ⟨b, t⟩
  · unfold deliverTop at h
    exact StepRes.noConfusion h
  · exact deliverTop_sentinel (sentinelAtBottom_of_cons hms (by simp)) h

lemma step_sentinel {cfg cfg' : Config}
    (hms0 : sentinelAtBottom cfg.metastack)
    (h : step cfg = .next cfg') :
    sentinelAtBottom cfg'.metastack := by
  unfold step at h
  rcases hmm : cfg.metastack with _ | ⟨F, rest⟩
  · exact absurd hmm (by simpa using sentinelAtBottom_ne_nil hms0)
  have hms : sentinelAtBottom (F :: rest) := hmm ▸ hms0
  have hmsAll : ∀ (X : Frame) (r : List Frame), F :: rest = X :: r →
      sentinelAtBottom (X :: r) := fun X r he => he ▸ hms
  rw [hmm] at h
  repeat' split at h
  all_goals first
    | exact StepRes.noConfusion h
    | exact dispatchAt_sentinel hms0 h
    | exact deliverFib_sentinel hms h
    | exact deliverTop_sentinel' (hmsAll _ _ (by assumption)) h
    | (injection h with h2
       subst h2
       exact hms)
    | (injection h with h2
       subst h2
       exact sentinelAtBottom_append
         (sentinelAtBottom_cons_fiber _ (hmsAll _ _ (by assumption))))
    | (injection h with h2
       subst h2
       exact @sentinelAtBottom_append [_] _
         (sentinelAtBottom_cons_fiber _ (hmsAll _ _ (by assumption))))

/-- One machine transition. -/
def stepRel (a b : Config) : Prop := step a = .next b

/-- Reachability along machine transitions. -/
def Reach (a b : Config) : Prop := Relation.ReflTransGen stepRel a b

/-- Claim C9: the metastack is never empty — its bottom frame is the
label-0 sentinel metaframe installed once at process start
(`init_metastack`), and no machine operation of the interface (handle /
handle_with installation, body return with handler pop, type-, label- and
static dispatch, `no_resume` frame discarding, resumption capture, resume,
tail-resume and the trampoline drain) ever removes it: the invariant holds
initially, is preserved by every step, and therefore holds in every
reachable configuration.  The object-level operations on resumption values
(move, `release`, destruction) do not touch the metastack at all, being no
machine transitions. -/
theorem C9_sentinel_never_removed :
    (∀ body : Comp, sentinelAtBottom (initConfig body).metastack
      ∧ (initConfig body).metastack.getLast? = some init_metaframe
      ∧ init_metaframe.label = 0 ∧ init_metaframe.hdef = Option.none)
    ∧ (∀ cfg cfg' : Config, sentinelAtBottom cfg.metastack →
        step cfg = .next cfg' →
        sentinelAtBottom cfg'.metastack ∧ cfg'.metastack ≠ [])
    ∧ (∀ (body : Comp) (cfg : Config), Reach (initConfig body) cfg →
        sentinelAtBottom cfg.metastack ∧ cfg.metastack ≠ []) := by
  have hinit : ∀ body : Comp, sentinelAtBottom (initConfig body).metastack := by
    intro body
    simp [sentinelAtBottom, initConfig, init_metaframe]
  refine ⟨fun body => ⟨hinit body, rfl, rfl, rfl⟩, ?_, ?_⟩
  · intro cfg cfg' hs hstep
    have h2 := step_sentinel hs hstep
    exact ⟨h2, sentinelAtBottom_ne_nil h2⟩
  · intro body cfg hreach
    have : sentinelAtBottom cfg.metastack := by
      induction hreach with
      | refl => exact hinit body
      | tail hr hstep ih => exact step_sentinel ih hstep
    exact ⟨this, sentinelAtBottom_ne_nil this⟩

/-- Witness: the initial configuration of a small handled program, one
machine step of it, and reachability at the initial configuration. -/
def C9wcfgA : Config :=
  initConfig (Comp.handleC Option.none (sampleReader 0 1) (Comp.ret 0)
    (fun v => Comp.ret v))

theorem C9_witness :
    (sentinelAtBottom (initConfig (Comp.ret 0)).metastack
      ∧ (initConfig (Comp.ret 0)).metastack.getLast? = some init_metaframe
      ∧ init_metaframe.label = 0 ∧ init_metaframe.hdef = Option.none)
    ∧ (∃ cfg', step C9wcfgA = .next cfg'
        ∧ sentinelAtBottom cfg'.metastack ∧ cfg'.metastack ≠ [])
    ∧ (sentinelAtBottom C9wcfgA.metastack ∧ C9wcfgA.metastack ≠ []) := by
  obtain ⟨c1, c2, c3⟩ := C9_sentinel_never_removed
  refine ⟨c1 (Comp.ret 0), ?_, ?_⟩
  · refine ⟨_, rfl, c2 C9wcfgA _ ?_ rfl⟩
    exact (c1 (Comp.handleC Option.none (sampleReader 0 1) (Comp.ret 0)
      (fun v => Comp.ret v))).1
  · exact c3 (Comp.handleC Option.none (sampleReader 0 1) (Comp.ret 0)
      (fun v => Comp.ret v)) C9wcfgA Relation.ReflTransGen.refl

/-! ### Claim C8

The native call-stack depth of the C++ runtime grows with the nesting of
pending fiber suspensions: every suspended clause or handle call waiting
for a delivered value is one `toFiber` layer in a `FinishK` chain.  The
measure `configDepth` below counts the deepest such chain anywhere in a
configuration, which is the machine counterpart of native call-stack
depth: a plain recursive resume would grow it linearly, and the claim is
that a chain of tail-resumes does not grow it at all. -/

mutual

def fibDepth : Fiber → Nat
  | .mk _ fin _ => finDepth fin + 1

def finDepth : FinishK → Nat
  | .halt => 0
  | .popRet => 0
  | .toFiber f => fibDepth f

end

def frameDepth (F : Frame) : Nat :=
  match F.fiber with
  | Option.none => 0
  | some f => fibDepth f

def msDepth : List Frame → Nat
  | [] => 0
  | F :: t => max (frameDepth F) (msDepth t)

def entryDepth : Option ResData → Nat
  | Option.none => 0
  | some rd => msDepth rd.stored_metastack

def storeDepth : List (Option ResData) → Nat
  | [] => 0
  | e :: t => max (entryDepth e) (storeDepth t)

def configDepth (cfg : Config) : Nat :=
  max (finDepth cfg.fin) (max (msDepth cfg.metastack) (storeDepth cfg.store))

/-- The tail-resumptive chain scenario: a handler for command 0 whose
clause tail-resumes with the command's payload. -/
def tailChainHandler : HandlerDef :=
  .mk [0]
    (fun c => if c == 0 then
        .normal (fun a rid => .tailResumeR rid a (fun d => .ret d))
      else .none)
    (fun v => v)

/-- A body performing `n` consecutive invocations of command 0. -/
def tailChainBody : Nat → Comp
  | 0 => .ret 0
  | n+1 => .invoke 0 1 (fun _ => tailChainBody n)

def tailChainProg (n : Nat) : Comp :=
  .handleC Option.none tailChainHandler (tailChainBody n) (fun v => .ret v)

/-- The caller fiber of the outer handle call of the scenario. -/
def tcMainFib : Fiber := Fiber.mk (fun v => Comp.ret v) .halt true

def tcSentinel : Frame := { init_metaframe with fiber := some tcMainFib }

def tcHFrame : Frame := ⟨-2, some tailChainHandler, Option.none⟩

/-- Consumed resumption slots left behind by earlier iterations. -/
def tcGarbage (s : Nat) : List (Option ResData) :=
  List.replicate s (some ⟨[], Option.none⟩)

/-- Configuration at the start of an iteration with `m` invocations left
and `s` earlier activations. -/
def tcB (m s : Nat) : Config :=
  { cur := tailChainBody m, fin := .popRet,
    metastack := [tcHFrame, tcSentinel], store := tcGarbage s,
    tail_resumption := Option.none, freshCounter := -2 }

def tcStored (m : Nat) : List Frame :=
  [{ tcHFrame with fiber := some (Fiber.mk (fun _ => tailChainBody m) .popRet false) }]

/-- Configuration after the dispatch of an iteration: the clause is about
to tail-resume. -/
def tcC (m s : Nat) : Config :=
  { cur := Comp.tailResumeR s 1 (fun d => Comp.ret d), fin := .toFiber tcMainFib,
    metastack := [init_metaframe],
    store := tcGarbage s ++ [some ⟨tcStored m, Option.none⟩],
    tail_resumption := Option.none, freshCounter := -2 }

/-- Configuration after the tail-resume: the resumption is parked in the
trampoline slot and the clause has returned its dummy value. -/
def tcD (m s : Nat) : Config :=
  { cur := Comp.ret 0, fin := .toFiber tcMainFib,
    metastack := [init_metaframe],
    store := tcGarbage s ++ [some ⟨tcStored m, some 1⟩],
    tail_resumption := some s, freshCounter := -2 }

/-- Configuration after the body finished and the answer was delivered to
the outer handle call's caller. -/
def tcE (s : Nat) : Config :=
  { cur := Comp.ret 0, fin := .halt, metastack := [init_metaframe],
    store := tcGarbage s, tail_resumption := Option.none, freshCounter := -2 }

lemma tcGarbage_length (s : Nat) : (tcGarbage s).length = s := by
  simp [tcGarbage]

lemma tcGarbage_concat_get (s : Nat) (a : Option ResData) :
    (tcGarbage s ++ [a])[s]? = some a := by
  have h := List.getElem?_concat_length (tcGarbage s) a
  rwa [tcGarbage_length] at h

lemma tcGarbage_concat_set (s : Nat) (a b : Option ResData) :
    (tcGarbage s ++ [a]).set s b = tcGarbage s ++ [b] := by
  rw [List.set_append_right _ _ (by rw [tcGarbage_length])]
  rw [tcGarbage_length]
  simp

lemma tc_step_init (n : Nat) :
    step (initConfig (tailChainProg n)) = .next (tcB n 0) := rfl

lemma tc_step_B (m s : Nat) : step (tcB (m+1) s) = .next (tcC m s) := by
  have h : step (tcB (m+1) s)
      = .next { cur := Comp.tailResumeR (tcGarbage s).length 1 (fun d => Comp.ret d),
                fin := .toFiber tcMainFib,
                metastack := [init_metaframe],
                store := tcGarbage s ++ [some ⟨tcStored m, Option.none⟩],
                tail_resumption := Option.none, freshCounter := -2 } := rfl
  rw [h, tcGarbage_length]
  rfl

lemma tc_step_C (m s : Nat) : step (tcC m s) = .next (tcD m s) := by
  unfold step tcC tcD
  simp only [tcGarbage_concat_get, tcGarbage_concat_set]
  rfl

lemma tc_step_D (m s : Nat) : step (tcD m s) = .next (tcB m (s+1)) := by
  unfold step tcD tcB
  show deliverFib 0 tcMainFib [init_metaframe]
      (tcGarbage s ++ [some ⟨tcStored m, some 1⟩]) (some s) (-2) = _
  unfold deliverFib performTailResume
  simp only [tcGarbage_concat_get, tcGarbage_concat_set]
  show StepRes.next _ = _
  rw [show tcGarbage s ++ [some (⟨[], Option.none⟩ : ResData)] = tcGarbage (s+1) by
    rw [tcGarbage, tcGarbage, List.replicate_succ']]
  rfl

lemma tc_step_B0 (s : Nat) : step (tcB 0 s) = .next (tcE s) := rfl

lemma tc_step_E (s : Nat) : step (tcE s) = .done 0 := rfl

/-- The set of configurations visited by the tail-resume chain. -/
inductive tcTraj (n : Nat) : Config → Prop where
  | init : tcTraj n (initConfig (tailChainProg n))
  | B (m s : Nat) : tcTraj n (tcB m s)
  | C (m s : Nat) : tcTraj n (tcC m s)
  | D (m s : Nat) : tcTraj n (tcD m s)
  | E (s : Nat) : tcTraj n (tcE s)

lemma tcTraj_closed {n : Nat} {cfg cfg' : Config}
    (ht : tcTraj n cfg) (h : step cfg = .next cfg') : tcTraj n cfg' := by
  cases ht with
  | init =>
    rw [tc_step_init] at h
    injection h with h2
    subst h2
    exact tcTraj.B n 0
  | B m s =>
    cases m with
    | zero =>
      rw [tc_step_B0] at h
      injection h with h2
      subst h2
      exact tcTraj.E s
    | succ m2 =>
      rw [tc_step_B] at h
      injection h with h2
      subst h2
      exact tcTraj.C m2 s
  | C m s =>
    rw [tc_step_C] at h
    injection h with h2
    subst h2
    exact tcTraj.D m s
  | D m s =>
    rw [tc_step_D] at h
    injection h with h2
    subst h2
    exact tcTraj.B m (s+1)
  | E s =>
    rw [tc_step_E] at h
    exact StepRes.noConfusion h

lemma storeDepth_append (l1 l2 : List (Option ResData)) :
    storeDepth (l1 ++ l2) = max (storeDepth l1) (storeDepth l2) := by
  induction l1 with
  | nil => simp [storeDepth]
  | cons e t ih =>
    simp [storeDepth, ih]
    omega

lemma tcGarbage_storeDepth (s : Nat) : storeDepth (tcGarbage s) = 0 := by
  induction s with
  | zero => rfl
  | succ m ih =>
    rw [tcGarbage, List.replicate_succ']
    rw [show List.replicate m (some (⟨[], Option.none⟩ : ResData)) = tcGarbage m from rfl]
    rw [storeDepth_append, ih]
    rfl

lemma tcTraj_depth {n : Nat} {cfg : Config} (ht : tcTraj n cfg) :
    configDepth cfg ≤ 1 := by
  cases ht with
  | init => exact Nat.zero_le 1
  | B m s =>
    show max 0 (max (max 0 (max 1 0)) (storeDepth (tcGarbage s))) ≤ 1
    rw [tcGarbage_storeDepth]
    omega
  | C m s =>
    show max 1 (max 0 (storeDepth (tcGarbage s ++ [some ⟨tcStored m, Option.none⟩]))) ≤ 1
    rw [storeDepth_append, tcGarbage_storeDepth]
    show max 1 (max 0 (max (max 1 0) 0)) ≤ 1
    omega
  | D m s =>
    show max 1 (max 0 (storeDepth (tcGarbage s ++ [some ⟨tcStored m, some 1⟩]))) ≤ 1
    rw [storeDepth_append, tcGarbage_storeDepth]
    show max 1 (max 0 (max (max 1 0) 0)) ≤ 1
    omega
  | E s =>
    show max 0 (max 0 (storeDepth (tcGarbage s))) ≤ 1
    rw [tcGarbage_storeDepth]
    omega

lemma run_succ (fuel : Nat) (cfg : Config) :
    run (fuel+1) cfg
      = match step cfg with
        | .next cfg' => run fuel cfg'
        | .done v => some (.value v)
        | .exitFail d => some (.exited d)
        | .undef => some .ub := rfl

lemma tc_run_B (m s : Nat) : run (3*m+2) (tcB m s) = some (.value 0) := by
  induction m generalizing s with
  | zero => rfl
  | succ m2 ih =>
    have harith : 3*(m2+1)+2 = ((3*m2+2)+1+1)+1 := by ring
    rw [harith, run_succ, tc_step_B]
    show run ((3*m2+2)+1+1) (tcC m2 s) = _
    rw [run_succ, tc_step_C]
    show run ((3*m2+2)+1) (tcD m2 s) = _
    rw [run_succ, tc_step_D]
    show run (3*m2+2) (tcB m2 (s+1)) = _
    exact ih (s+1)

/-- Claim C8: `tail_resume` on a valid resumption parks it in the single
process-wide trampoline slot and returns immediately with the dummy
default-constructed value 0, leaving the metastack, the running
continuation context and everything else untouched — no fiber switch;
delivery into a suspension point that drains (the loops of `handle_with`
and `resume`) performs the pending tail-resume, clearing the slot, and the
next delivery checks the slot again; consequently a chain of `n`
consecutive tail-resumes completes (in `3n+3` machine steps) while the
nesting depth of pending fiber continuations — the machine counterpart of
native call-stack depth — stays bounded by 1, independently of `n`. -/
theorem C8_tail_resume_trampoline
    (cfg : Config) (rid : Nat) (v : Int) (k : Int → Comp) (rd : ResData)
    (fib : Fiber) (ms : List Frame) (store : List (Option ResData)) (fc : Int) :
    (cfg.cur = Comp.tailResumeR rid v k →
      cfg.store[rid]? = some (some rd) →
      rd.stored_metastack.isEmpty = false →
      step cfg = .next
        { cur := k 0, fin := cfg.fin, metastack := cfg.metastack,
          store := cfg.store.set rid
            (some { rd with command_result_buffer := some v }),
          tail_resumption := some rid, freshCounter := cfg.freshCounter })
    ∧ (fib.drains = true →
        deliverFib v fib ms store (some rid) fc = performTailResume rid fib ms store fc)
    ∧ (∀ cfg', performTailResume rid fib ms store fc = .next cfg' →
        cfg'.tail_resumption = Option.none)
    ∧ (∀ n : Nat, run (3*n+3) (initConfig (tailChainProg n)) = some (.value 0))
    ∧ (∀ (n : Nat) (cfg2 : Config),
        Reach (initConfig (tailChainProg n)) cfg2 → configDepth cfg2 ≤ 1) := by
  refine ⟨?_, ?_, ?_, ?_, ?_⟩
  · intro hcur hrd hne
    simp only [step, hcur, hrd, hne]
    rfl
  · intro hdr
    unfold deliverFib
    rw [if_pos hdr]
  · intro cfg' h
    unfold performTailResume at h
    repeat' split at h
    all_goals first
      | exact StepRes.noConfusion h
      | (injection h with h2; subst h2; rfl)
  · intro n
    rw [show 3*n+3 = (3*n+2)+1 from by ring, run_succ, tc_step_init]
    show run (3*n+2) (tcB n 0) = _
    exact tc_run_B n 0
  · intro n cfg2 hreach
    have : tcTraj n cfg2 := by
      induction hreach with
      | refl => exact tcTraj.init
      | tail hr hstep ih => exact tcTraj_closed ih hstep
    exact tcTraj_depth this

theorem C8_witness :
    (step { cur := Comp.tailResumeR 0 5 (fun d => Comp.ret d),
            fin := .popRet, metastack := [init_metaframe],
            store := [some ⟨[init_metaframe], Option.none⟩],
            tail_resumption := Option.none, freshCounter := -1 }
      = .next
        { cur := Comp.ret 0, fin := .popRet, metastack := [init_metaframe],
          store := [some ⟨[init_metaframe], some 5⟩],
          tail_resumption := some 0, freshCounter := -1 })
    ∧ (deliverFib 5 tcMainFib [init_metaframe]
         [some ⟨[init_metaframe], Option.none⟩] (some 0) (-1)
       = performTailResume 0 tcMainFib [init_metaframe]
           [some ⟨[init_metaframe], Option.none⟩] (-1))
    ∧ (run (3*2+3) (initConfig (tailChainProg 2)) = some (.value 0))
    ∧ configDepth (initConfig (tailChainProg 2)) ≤ 1 := by
  obtain ⟨h1, h2, _, h4, h5⟩ :=
    C8_tail_resume_trampoline
      { cur := Comp.tailResumeR 0 5 (fun d => Comp.ret d),
        fin := .popRet, metastack := [init_metaframe],
        store := [some ⟨[init_metaframe], Option.none⟩],
        tail_resumption := Option.none, freshCounter := -1 }
      0 5 (fun d => Comp.ret d) ⟨[init_metaframe], Option.none⟩
      tcMainFib [init_metaframe] [some ⟨[init_metaframe], Option.none⟩] (-1)
  exact ⟨h1 rfl rfl rfl, h2 rfl, h4 2,
    h5 2 (initConfig (tailChainProg 2)) Relation.ReflTransGen.refl⟩

/-! ### Claim C7

A self-resumptive command clause is one that resumes its resumption
exactly once, immediately, with a function of the command, and returns the
resumed answer — the shape `return std::move(r).resume(f(cmd))`.  The
claim compares a handler carrying such a clause with the handler obtained
by replacing the clause by its `plain<Cmd>` counterpart `return f(cmd)`.

The two machines run the same client computation; the configurations
differ only in (a) the clause definition installed in the handler's
metaframes, (b) one extra already-consumed resumption slot per plain
dispatch on the unmodified side (the allocation the plain path skips), and
(c) the fiber stored in the frame below the handler after a dispatch: the
unmodified path leaves behind a one-step eta-wrapper (the suspended clause
continuation `fun ans => return ans`) around the fiber the plain path
restores.  The relation `ConfigR` below captures exactly these
differences, and the simulation theorem shows they are unobservable. -/

/-- The self-resumptive clause of answer function `f`:
`handle_command(Cmd c, resumption r) { return std::move(r).resume(f(c)); }`. -/
def selfResClause (f : Int → Int) : ClauseRes :=
  .normal (fun a rid => .resumeR rid (f a) (fun ans => .ret ans))

mutual

/-- Fiber relation of the simulation: identical continuations with
related finish behaviours, or an eta-wrapper (a suspended self-resumptive
clause continuation) on the unmodified side around a related pair; the
wrapped fiber always sits at a draining suspension point. -/
inductive FibR : Fiber → Fiber → Prop where
  | base (k : Int → Comp) (f1 f2 : FinishK) (d : Bool) :
      FinR f1 f2 → FibR (.mk k f1 d) (.mk k f2 d)
  | wrap (f1 f2 : Fiber) : FibR f1 f2 → f1.drains = true →
      FibR f1 (.mk (fun ans => Comp.ret ans) (.toFiber f2) true)

/-- Finish-behaviour relation of the simulation. -/
inductive FinR : FinishK → FinishK → Prop where
  | halt : FinR .halt .halt
  | popRet : FinR .popRet .popRet
  | toFiber (f1 f2 : Fiber) : FibR f1 f2 → FinR (.toFiber f1) (.toFiber f2)

end

/-- Fiber relation without the wrapper case: used for the invoker
continuations stored at the head of a captured stack. -/
inductive FibRB : Fiber → Fiber → Prop where
  | base (k : Int → Comp) (f1 f2 : FinishK) (d : Bool) :
      FinR f1 f2 → FibRB (.mk k f1 d) (.mk k f2 d)

/-- Clause relation: identical, or the plain clause against its
self-resumptive unmodified counterpart. -/
inductive ClauseR : ClauseRes → ClauseRes → Prop where
  | refl (cl : ClauseRes) : ClauseR cl cl
  | variant (f : Int → Int) : ClauseR (.plainClause f) (selfResClause f)

/-- Handler relation: same declared commands and return clause, clauses
related pointwise. -/
inductive HandlerR : HandlerDef → HandlerDef → Prop where
  | mk (d : List CmdTy) (cl1 cl2 : CmdTy → ClauseRes) (r : Int → Int) :
      (∀ c, ClauseR (cl1 c) (cl2 c)) → HandlerR (.mk d cl1 r) (.mk d cl2 r)

inductive OptHR : Option HandlerDef → Option HandlerDef → Prop where
  | none : OptHR Option.none Option.none
  | some (h1 h2 : HandlerDef) : HandlerR h1 h2 → OptHR (some h1) (some h2)

inductive OptFibR : Option Fiber → Option Fiber → Prop where
  | none : OptFibR Option.none Option.none
  | some (f1 f2 : Fiber) : FibR f1 f2 → OptFibR (some f1) (some f2)

/-- Metaframe relation. -/
structure FrameR (F1 F2 : Frame) : Prop where
  lab : F1.label = F2.label
  hdr : OptHR F1.hdef F2.hdef
  fbr : OptFibR F1.fiber F2.fiber

/-- Relation on resumption buffers: captured stacks related framewise,
head fibers related without wrappers, equal transfer buffers. -/
structure ResDataR (r1 r2 : ResData) : Prop where
  stk : List.Forall₂ FrameR r1.stored_metastack r2.stored_metastack
  hd : ∀ T1 T2, r1.stored_metastack.head? = some T1 →
       r2.stored_metastack.head? = some T2 →
       (T1.fiber = Option.none ∧ T2.fiber = Option.none)
       ∨ (∃ g1 g2, T1.fiber = some g1 ∧ T2.fiber = some g2 ∧ FibRB g1 g2)
  buf : r1.command_result_buffer = r2.command_result_buffer

/-- Store-slot relation: equal emptiness, related buffers, or the slot the
plain path never filled against the consumed slot of the unmodified
path — the allowed difference in allocation counts. -/
inductive EntryR : Option ResData → Option ResData → Prop where
  | none : EntryR Option.none Option.none
  | some (r1 r2 : ResData) : ResDataR r1 r2 → EntryR (some r1) (some r2)
  | garbage : EntryR Option.none (some ⟨[], Option.none⟩)

/-- Configuration relation of the simulation: identical running client
computation, related finish behaviour, metastacks related framewise,
stores related slotwise, equal trampoline slot and label counter. -/
structure ConfigR (c1 c2 : Config) : Prop where
  cur : c1.cur = c2.cur
  fin : FinR c1.fin c2.fin
  ms : List.Forall₂ FrameR c1.metastack c2.metastack
  store : List.Forall₂ EntryR c1.store c2.store
  slot : c1.tail_resumption = c2.tail_resumption
  fc : c1.freshCounter = c2.freshCounter

/-! Structural invariants of reachable configurations, stated on the
plain side and transported through `ConfigR` where needed: the running
(top) frame holds no fiber; every deeper metaframe holds a suspended
fiber, and that fiber's suspension point drains the trampoline slot (it
belongs to a handle or resume call); the bottom frame is the sentinel; in
every captured stack the frames below the captured top likewise hold
draining fibers. -/

def framesOK : List Frame → Prop
  | [] => True
  | _ :: rest => ∀ F ∈ rest, ∃ fib, F.fiber = some fib ∧ fib.drains = true

def storedOK (l : List Frame) : Prop := framesOK l

def storeOK (st : List (Option ResData)) : Prop :=
  ∀ e ∈ st, ∀ rd, e = some rd → storedOK rd.stored_metastack

def headNone : List Frame → Prop
  | [] => True
  | F :: _ => F.fiber = Option.none

def ConfigOK (cfg : Config) : Prop :=
  headNone cfg.metastack ∧ framesOK cfg.metastack
    ∧ sentinelAtBottom cfg.metastack ∧ storeOK cfg.store

/-! Compatibility lemmas: related configurations make the same
observations and search decisions. -/

lemma HandlerR_refl (h : HandlerDef) : HandlerR h h := by
  cases h with
  | mk d cl r => exact HandlerR.mk d cl cl r (fun c => ClauseR.refl _)

lemma FinR_refl (fin : FinishK) : FinR fin fin :=
  @FinishK.rec (fun f => FinR f f) (fun f => FibR f f)
    FinR.halt FinR.popRet
    (fun f ih => FinR.toFiber f f ih)
    (fun k f d ih => FibR.base k f f d ih)
    fin

lemma FibR_refl (f : Fiber) : FibR f f :=
  @Fiber.rec (fun g => FinR g g) (fun g => FibR g g)
    FinR.halt FinR.popRet
    (fun g ih => FinR.toFiber g g ih)
    (fun k g d ih => FibR.base k g g d ih)
    f

lemma FrameR_refl (F : Frame) : FrameR F F := by
  refine ⟨rfl, ?_, ?_⟩
  · cases hF : F.hdef with
    | none => exact OptHR.none
    | some h => exact OptHR.some h h (HandlerR_refl h)
  · cases hF : F.fiber with
    | none => exact OptFibR.none
    | some f => exact OptFibR.some f f (FibR_refl f)

lemma FrameR_declares {F1 F2 : Frame} (h : FrameR F1 F2) (c : CmdTy) :
    declares F1 c = declares F2 c := by
  obtain ⟨l1, h1, f1⟩ := F1
  obtain ⟨l2, h2, f2⟩ := F2
  obtain ⟨hl, hh, hf⟩ := h
  cases hh with
  | none => rfl
  | some a b hab =>
    cases hab with
    | mk d cl1 cl2 r hcl =>
      simp only [declares, HandlerDef.clause]
      have h2 := hcl c
      revert h2
      generalize cl1 c = x
      generalize cl2 c = y
      intro h2
      cases h2 <;> rfl

lemma FrameR_clauseLookup {F1 F2 : Frame} (h : FrameR F1 F2) (c : CmdTy) :
    ClauseR (clauseLookup F1 c) (clauseLookup F2 c) := by
  obtain ⟨l1, h1, f1⟩ := F1
  obtain ⟨l2, h2, f2⟩ := F2
  obtain ⟨hl, hh, hf⟩ := h
  cases hh with
  | none => exact ClauseR.refl _
  | some a b hab =>
    cases hab with
    | mk d cl1 cl2 r hcl => exact hcl c

lemma FrameR_declaredCmds {F1 F2 : Frame} (h : FrameR F1 F2) :
    declaredCmds F1 = declaredCmds F2 := by
  obtain ⟨l1, h1, f1⟩ := F1
  obtain ⟨l2, h2, f2⟩ := F2
  obtain ⟨hl, hh, hf⟩ := h
  cases hh with
  | none => rfl
  | some a b hab => cases hab with | mk d cl1 cl2 r hcl => rfl

lemma FrameR_retClause {F1 F2 : Frame} (h : FrameR F1 F2)
    {h1 h2 : HandlerDef} (e1 : F1.hdef = some h1) (e2 : F2.hdef = some h2) :
    h1.retClause = h2.retClause := by
  obtain ⟨hl, hh, hf⟩ := h
  rw [e1, e2] at hh
  cases hh with
  | some a b hab => cases hab with | mk d cl1 cl2 r hcl => rfl

lemma dump_eq {ms1 ms2 : List Frame} (h : List.Forall₂ FrameR ms1 ms2) :
    debug_print_metastack ms1 = debug_print_metastack ms2 := by
  induction h with
  | nil => rfl
  | cons hF hT ih =>
    unfold debug_print_metastack at ih ⊢
    simp only [List.map_cons]
    rw [hF.lab, FrameR_declaredCmds hF]
    rw [show List.map (fun F => DiagLine.frameInfo F.label (declaredCmds F)) _
          = List.map (fun F => DiagLine.frameInfo F.label (declaredCmds F)) _ from ih]

lemma findIdx?_congr {α β : Type} (p : α → Bool) (q : β → Bool)
    (R : α → β → Prop) (hpq : ∀ a b, R a b → p a = q b)
    {l1 : List α} {l2 : List β} (h : List.Forall₂ R l1 l2) :
    l1.findIdx? p = l2.findIdx? q := by
  induction h with
  | nil => rfl
  | cons hF hT ih =>
    rw [List.findIdx?_cons, List.findIdx?_cons, hpq _ _ hF,
        List.findIdx?_succ, List.findIdx?_succ, ih]

lemma findHandlerIdx_eq {ms1 ms2 : List Frame}
    (h : List.Forall₂ FrameR ms1 ms2) (c : CmdTy) :
    findHandlerIdx ms1 c = findHandlerIdx ms2 c :=
  findIdx?_congr _ _ FrameR (fun _ _ hF => FrameR_declares hF c) h

lemma findLabelIdx_eq {ms1 ms2 : List Frame}
    (h : List.Forall₂ FrameR ms1 ms2) (lbl : Int) :
    findLabelIdx ms1 lbl = findLabelIdx ms2 lbl :=
  findIdx?_congr _ _ FrameR (fun _ _ hF => by rw [hF.lab]) h

lemma forall₂_getElem? {α β : Type} {R : α → β → Prop}
    {l1 : List α} {l2 : List β} (h : List.Forall₂ R l1 l2) (i : Nat) :
    (l1[i]? = Option.none ∧ l2[i]? = Option.none)
    ∨ (∃ a b, l1[i]? = some a ∧ l2[i]? = some b ∧ R a b) := by
  induction h generalizing i with
  | nil => exact Or.inl ⟨rfl, rfl⟩
  | cons hF hT ih =>
    cases i with
    | zero => exact Or.inr ⟨_, _, by simp, by simp, hF⟩
    | succ j =>
      rcases ih j with ⟨e1, e2⟩ | ⟨a, b, e1, e2, hab⟩
      · exact Or.inl ⟨by simpa using e1, by simpa using e2⟩
      · exact Or.inr ⟨a, b, by simpa using e1, by simpa using e2, hab⟩

lemma findIdx?_some_prop {α : Type} {p : α → Bool} :
    ∀ {l : List α} {i : Nat}, l.findIdx? p = some i →
      ∃ a, l[i]? = some a ∧ p a = true := by
  intro l
  induction l with
  | nil => intro i h; simp [List.findIdx?] at h
  | cons x xs ih =>
    intro i h
    rw [List.findIdx?_cons] at h
    by_cases hp : p x = true
    · rw [if_pos hp] at h
      injection h with h2
      subst h2
      exact ⟨x, by simp, hp⟩
    · rw [if_neg hp, List.findIdx?_succ] at h
      rcases hfi : xs.findIdx? p with _ | j
      · rw [hfi] at h; simp at h
      · rw [hfi] at h
        simp at h
        obtain ⟨a, ha, hpa⟩ := ih hfi
        subst h
        exact ⟨a, by simpa using ha, hpa⟩

lemma forall₂_set {α β : Type} {R : α → β → Prop}
    {l1 : List α} {l2 : List β} (h : List.Forall₂ R l1 l2)
    {a : α} {b : β} (hab : R a b) (i : Nat) :
    List.Forall₂ R (l1.set i a) (l2.set i b) := by
  induction h generalizing i with
  | nil => exact List.Forall₂.nil
  | cons hF hT ih =>
    cases i with
    | zero => exact List.Forall₂.cons hab hT
    | succ j => exact List.Forall₂.cons hF (ih j)

/-! Invariant helper lemmas. -/

def tailOK (l : List Frame) : Prop :=
  ∀ F ∈ l, ∃ fib, F.fiber = some fib ∧ fib.drains = true

lemma framesOK_cons {X : Frame} {r : List Frame} :
    framesOK (X :: r) ↔ tailOK r := Iff.rfl

lemma storeOK_append {st : List (Option ResData)} {e : Option ResData}
    (h : storeOK st) (he : ∀ rd, e = some rd → storedOK rd.stored_metastack) :
    storeOK (st ++ [e]) := by
  intro x hx rd hrd
  rcases List.mem_append.mp hx with h1 | h1
  · exact h x h1 rd hrd
  · simp at h1
    subst h1
    exact he rd hrd

lemma storeOK_set {st : List (Option ResData)} {rid : Nat} {e : Option ResData}
    (h : storeOK st) (he : ∀ rd, e = some rd → storedOK rd.stored_metastack) :
    storeOK (st.set rid e) := by
  intro x hx rd hrd
  rcases List.mem_or_eq_of_mem_set hx with h1 | h1
  · exact h x h1 rd hrd
  · subst h1
    exact he rd hrd

lemma declares_hdef {F : Frame} {c : CmdTy} (h : declares F c = true) :
    F.hdef ≠ Option.none := by
  intro he
  unfold declares at h
  rw [he] at h
  exact Bool.noConfusion h

lemma drop_ne_nil_of_sentinel {ms : List Frame} {i : Nat} {F : Frame}
    (hs : sentinelAtBottom ms) (hF : ms[i]? = some F)
    (hne : F.hdef ≠ Option.none) : ms.drop (i+1) ≠ [] := by
  intro hdrop
  have hlen : ms.length ≤ i + 1 := List.drop_eq_nil_iff.mp hdrop
  have hilt : i < ms.length := (List.getElem?_eq_some.mp hF).1
  have hieq : ms.length - 1 = i := by omega
  unfold sentinelAtBottom at hs
  rw [List.getLast?_eq_getElem? ms, hieq, hF] at hs
  simp at hs
  exact hne hs.2

/-! Relation machinery of the simulation: one plain-side step is matched
by one or more unmodified-side steps ending in a related result. -/

/-- Results agree: related next-configurations, or the same terminal
outcome. -/
def StepResR (r1 r2 : StepRes) : Prop :=
  match r1, r2 with
  | .next c1, .next c2 => ConfigR c1 c2
  | a, b => a = b

/-- `resReach r r'`: from the step result `r`, continuing to run the
machine for zero or more further steps produces the step result `r'`. -/
inductive resReach : StepRes → StepRes → Prop where
  | refl (r : StepRes) : resReach r r
  | head (c : Config) (r : StepRes) : resReach (step c) r → resReach (.next c) r

/-- The simulation's step obligation: the right side reaches a result
related to the left side's. -/
def SimOut (r1 r2 : StepRes) : Prop :=
  ∃ r', resReach r2 r' ∧ StepResR r1 r'

lemma SimOut_now {r1 r2 : StepRes} (h : StepResR r1 r2) : SimOut r1 r2 :=
  ⟨r2, .refl r2, h⟩

lemma FibRB_refl (f : Fiber) : FibRB f f := by
  cases f with
  | mk k fin d => exact FibRB.base k fin fin d (FinR_refl fin)

lemma EntryR_refl (e : Option ResData) : EntryR e e := by
  cases e with
  | none => exact EntryR.none
  | some rd =>
    refine EntryR.some rd rd
      ⟨List.forall₂_same.mpr (fun F _ => FrameR_refl F), ?_, rfl⟩
    intro T1 T2 h1 h2
    rw [h1] at h2
    injection h2 with h2
    subst h2
    cases hf : T1.fiber with
    | none => exact Or.inl ⟨rfl, rfl⟩
    | some g => exact Or.inr ⟨g, g, rfl, rfl, FibRB_refl g⟩

lemma ConfigR_refl (c : Config) : ConfigR c c :=
  ⟨rfl, FinR_refl _, List.forall₂_same.mpr (fun F _ => FrameR_refl F),
   List.forall₂_same.mpr (fun e _ => EntryR_refl e), rfl, rfl⟩

/-! Preservation of the structural invariants (`headNone`, `framesOK`,
`storeOK`) by every machine operation; the sentinel component of
`ConfigOK` is preserved by `step_sentinel` above. -/

lemma performTailResume_OK {rid : Nat} {fib : Fiber} {ms : List Frame}
    {store : List (Option ResData)} {fc : Int} {cfg' : Config}
    (hfr : framesOK ms) (hst : storeOK store) (hd : fib.drains = true)
    (h : performTailResume rid fib ms store fc = .next cfg') :
    headNone cfg'.metastack ∧ framesOK cfg'.metastack ∧ storeOK cfg'.store := by
  unfold performTailResume at h
  repeat' split at h
  all_goals try exact StepRes.noConfusion h
  injection h with h2
  subst h2
  rename_i rd hrd x2 x1 ms0 T others w X rest hsm hbuf x0 tf htf
  refine ⟨rfl, ?_, ?_⟩
  · intro F hF
    rcases List.mem_append.mp hF with h1 | h1
    · have hmem := List.getElem?_mem hrd
      have hsOK := hst _ hmem rd rfl
      rw [hsm] at hsOK
      exact hsOK F h1
    · rcases List.mem_cons.mp h1 with h2 | h2
      · subst h2
        exact ⟨fib, rfl, hd⟩
      · exact hfr F h2
  · refine storeOK_set hst ?_
    intro rd' he
    injection he with he
    subst he
    trivial

lemma deliverFib_OK {v : Int} {fib : Fiber} {ms : List Frame}
    {store : List (Option ResData)} {slot : Option Nat} {fc : Int} {cfg' : Config}
    (hhn : headNone ms) (hfr : framesOK ms) (hst : storeOK store)
    (h : deliverFib v fib ms store slot fc = .next cfg') :
    headNone cfg'.metastack ∧ framesOK cfg'.metastack ∧ storeOK cfg'.store := by
  unfold deliverFib at h
  by_cases hd : fib.drains = true
  · rw [if_pos hd] at h
    cases hsl : slot with
    | none =>
      rw [hsl] at h
      injection h with h2
      subst h2
      exact ⟨hhn, hfr, hst⟩
    | some rid =>
      rw [hsl] at h
      exact performTailResume_OK hfr hst hd h
  · rw [if_neg hd] at h
    injection h with h2
    subst h2
    exact ⟨hhn, hfr, hst⟩

lemma deliverTop_OK {v : Int} {ms : List Frame}
    {store : List (Option ResData)} {slot : Option Nat} {fc : Int} {cfg' : Config}
    (hta : tailOK ms) (hst : storeOK store)
    (h : deliverTop v ms store slot fc = .next cfg') :
    headNone cfg'.metastack ∧ framesOK cfg'.metastack ∧ storeOK cfg'.store := by
  unfold deliverTop at h
  repeat' split at h
  all_goals first
    | exact StepRes.noConfusion h
    | (refine deliverFib_OK ?_ ?_ hst h
       · rfl
       · exact fun F hF => hta F (List.mem_cons_of_mem _ hF))

lemma dispatchAt_OK {i : Nat} {c : CmdTy} {arg : Int} {k : Int → Comp}
    {cfg : Config} {cfg' : Config}
    (hhn : headNone cfg.metastack) (hfr : framesOK cfg.metastack)
    (hst : storeOK cfg.store)
    (h : dispatchAt i c arg k cfg = .next cfg') :
    headNone cfg'.metastack ∧ framesOK cfg'.metastack ∧ storeOK cfg'.store := by
  have hmemtail : ∀ (X : Frame) (rest : List Frame),
      cfg.metastack.drop (i+1) = X :: rest →
      ∀ F, F ∈ rest → ∃ fib, F.fiber = some fib ∧ fib.drains = true := by
    intro X rest hdrop F hF
    rcases hmm : cfg.metastack with _ | ⟨Y, t⟩
    · rw [hmm] at hdrop
      simp at hdrop
    · rw [hmm] at hdrop
      have hdrop' : t.drop i = X :: rest := hdrop
      have hsub := List.drop_subset i t
      rw [hdrop'] at hsub
      rw [hmm] at hfr
      exact hfr F (hsub (List.mem_cons_of_mem X hF))
  have hstored : ∀ (fo : Option Fiber),
      storedOK (setHeadFiber (cfg.metastack.take (i+1)) fo) := by
    intro fo
    rcases hmm : cfg.metastack with _ | ⟨Y, t⟩
    · trivial
    · show tailOK (t.take i)
      intro F hF
      have hFt : F ∈ t := List.take_subset i t hF
      rw [hmm] at hfr
      exact hfr F hFt
  unfold dispatchAt at h
  repeat' split at h
  all_goals try exact StepRes.noConfusion h
  · -- normal clause: capture frames 0..i, run the clause on the consumed fiber
    injection h with h2
    subst h2
    rename_i X rest hdrop xf retFib hXf
    refine ⟨rfl, fun F hF => hmemtail X rest hdrop F hF, ?_⟩
    refine storeOK_append hst ?_
    intro rd' he
    injection he with he
    subst he
    exact hstored _
  · -- plain clause: fibers swapped out and back, metastack restored
    injection h with h2
    subst h2
    simp only [swapHeadFibers_swapHeadFibers, List.take_append_drop]
    exact ⟨hhn, hfr, storeOK_append hst (fun rd' he => Option.noConfusion he)⟩
  · -- no_resume clause: frames 0..i erased outright
    injection h with h2
    subst h2
    rename_i X rest hdrop xf retFib hXf
    exact ⟨rfl, fun F hF => hmemtail X rest hdrop F hF,
           storeOK_append hst (fun rd' he => Option.noConfusion he)⟩

lemma step_OK3 {cfg cfg' : Config}
    (hhn : headNone cfg.metastack) (hfr : framesOK cfg.metastack)
    (hst : storeOK cfg.store)
    (h : step cfg = .next cfg') :
    headNone cfg'.metastack ∧ framesOK cfg'.metastack ∧ storeOK cfg'.store := by
  have hta : ∀ (X : Frame) (r : List Frame), cfg.metastack = X :: r → tailOK r := by
    intro X r he
    have h2 : framesOK (X :: r) := he ▸ hfr
    exact h2
  rcases hcur : cfg.cur with
    v | ⟨c, arg, k⟩ | ⟨lbl, c, arg, k⟩ | ⟨c, arg, k⟩ | ⟨lbl, c, arg, k⟩
      | ⟨lblOpt, hdl, body, kk⟩ | ⟨rid, v, kk⟩ | ⟨rid, v, kk⟩
  all_goals simp only [step, hcur] at h
  · -- ret: deliver to the consumed fiber or pop the handler frame
    repeat' split at h
    all_goals first
      | exact StepRes.noConfusion h
      | exact deliverFib_OK hhn hfr hst h
      | (refine deliverTop_OK ?_ hst h
         exact hta _ _ (by assumption))
  · -- invoke
    repeat' split at h
    all_goals first
      | exact StepRes.noConfusion h
      | exact dispatchAt_OK hhn hfr hst h
  · -- invokeLbl
    repeat' split at h
    all_goals first
      | exact StepRes.noConfusion h
      | exact dispatchAt_OK hhn hfr hst h
  · -- staticInvoke
    repeat' split at h
    all_goals first
      | exact StepRes.noConfusion h
      | exact dispatchAt_OK hhn hfr hst h
  · -- staticInvokeLbl
    repeat' split at h
    all_goals first
      | exact StepRes.noConfusion h
      | exact dispatchAt_OK hhn hfr hst h
  · -- handleC: push a fresh handler frame, store the caller's fiber below
    repeat' split at h
    all_goals first
      | exact StepRes.noConfusion h
      | (injection h with h2
         subst h2
         refine ⟨rfl, ?_, hst⟩
         intro F hF
         rcases List.mem_cons.mp hF with h1 | h1
         · subst h1
           exact ⟨_, rfl, rfl⟩
         · exact hta _ _ (by assumption) F h1)
  · -- resumeR: splice the captured frames back
    repeat' split at h
    all_goals try exact StepRes.noConfusion h
    injection h with h2
    subst h2
    rename_i x3 rd hrd x2 x1 T others X rest hsm hms x0 tf htf
    refine ⟨rfl, ?_, storeOK_set hst (fun rd' he => by
      injection he with he
      subst he
      trivial)⟩
    intro F hF
    rcases List.mem_append.mp hF with h1 | h1
    · have hmem := List.getElem?_mem hrd
      have hsOK := hst _ hmem rd rfl
      rw [hsm] at hsOK
      exact hsOK F h1
    · rcases List.mem_cons.mp h1 with h2 | h2
      · subst h2
        exact ⟨_, rfl, rfl⟩
      · exact hta _ _ hms F h2
  · -- tailResumeR: park the resumption in the trampoline slot
    repeat' split at h
    all_goals try exact StepRes.noConfusion h
    injection h with h2
    subst h2
    rename_i x0 rd hrd hne
    refine ⟨hhn, hfr, storeOK_set hst ?_⟩
    intro rd' he
    injection he with he
    subst he
    have hmem := List.getElem?_mem hrd
    exact hst _ hmem rd rfl

lemma step_OK {cfg cfg' : Config} (hOK : ConfigOK cfg)
    (h : step cfg = .next cfg') : ConfigOK cfg' := by
  obtain ⟨hhn, hfr, hsb, hst⟩ := hOK
  obtain ⟨a, b, c⟩ := step_OK3 hhn hfr hst h
  exact ⟨a, b, step_sentinel hsb h, c⟩

/-! Simulation lemmas: each machine operation of the plain-modifier side
is matched by the unmodified side. -/

lemma forall₂_destruct {α β : Type} {R : α → β → Prop} {l1 : List α}
    {l2 : List β} (h : List.Forall₂ R l1 l2) :
    (l1 = [] ∧ l2 = [])
    ∨ ∃ a b t1 t2, l1 = a :: t1 ∧ l2 = b :: t2 ∧ R a b ∧ List.Forall₂ R t1 t2 := by
  cases h with
  | nil => exact Or.inl ⟨rfl, rfl⟩
  | cons hab ht => exact Or.inr ⟨_, _, _, _, rfl, rfl, hab, ht⟩

lemma performTailResumeSim {rid : Nat} {fib1 fib2 : Fiber}
    {ms1 ms2 : List Frame} {st1 st2 : List (Option ResData)} {fc : Int}
    (hfib : FibR fib1 fib2) (hms : List.Forall₂ FrameR ms1 ms2)
    (hst : List.Forall₂ EntryR st1 st2) :
    StepResR (performTailResume rid fib1 ms1 st1 fc)
             (performTailResume rid fib2 ms2 st2 fc) := by
  unfold performTailResume
  rcases forall₂_getElem? hst rid with ⟨he1, he2⟩ | ⟨e1, e2, he1, he2, heR⟩
  · rw [he1, he2]
    rfl
  cases heR with
  | none => rw [he1, he2]; rfl
  | garbage => rw [he1, he2]; rfl
  | some rd1 rd2 hrd =>
    obtain ⟨hstk, hhd, hbuf⟩ := hrd
    simp only [he1, he2]
    rcases forall₂_destruct hstk with ⟨hs1, hs2⟩ | ⟨T1, T2, o1, o2, hs1, hs2, hT, ho⟩
    · simp only [hs1, hs2]
      rfl
    simp only [hs1, hs2, hbuf]
    rcases hb : rd2.command_result_buffer with _ | w
    · cases hms <;> rfl
    cases hms with
    | nil => rfl
    | cons hX hr =>
      rcases hhd T1 T2 (by rw [hs1]; rfl) (by rw [hs2]; rfl) with
        ⟨ht1, ht2⟩ | ⟨tf1, tf2, ht1, ht2, htfR⟩
      · simp only [ht1, ht2]
        rfl
      simp only [ht1, ht2]
      cases htfR with
      | base kf f1 f2 d hfin =>
        show ConfigR _ _
        refine ⟨rfl, hfin, ?_, ?_, rfl, rfl⟩
        · exact List.rel_append
            (List.Forall₂.cons ⟨hT.lab, hT.hdr, OptFibR.none⟩ ho)
            (List.Forall₂.cons ⟨hX.lab, hX.hdr, OptFibR.some _ _ hfib⟩ hr)
        · refine forall₂_set hst (EntryR.some _ _ ⟨List.Forall₂.nil, ?_, rfl⟩) rid
          intro A B hA hB
          exact Option.noConfusion hA

lemma OptFibR_destruct {a b : Option Fiber} (h : OptFibR a b) :
    (a = Option.none ∧ b = Option.none)
    ∨ ∃ f1 f2, a = some f1 ∧ b = some f2 ∧ FibR f1 f2 := by
  cases h with
  | none => exact Or.inl ⟨rfl, rfl⟩
  | some f1 f2 hf => exact Or.inr ⟨f1, f2, rfl, rfl, hf⟩

lemma deliverFibSim {v : Int} {ms1 ms2 : List Frame}
    {st1 st2 : List (Option ResData)} {slot : Option Nat} {fc : Int}
    (hms : List.Forall₂ FrameR ms1 ms2) (hst : List.Forall₂ EntryR st1 st2) :
    ∀ (n : Nat) (fib1 fib2 : Fiber), fibDepth fib2 ≤ n → FibR fib1 fib2 →
    SimOut (deliverFib v fib1 ms1 st1 slot fc)
           (deliverFib v fib2 ms2 st2 slot fc) := by
  intro n
  induction n with
  | zero =>
    intro fib1 fib2 hdep hfib
    cases fib2 with
    | mk k f d => simp [fibDepth] at hdep
  | succ n ih =>
    intro fib1 fib2 hdep hfib
    cases hfib with
    | base k f1 f2 d hfin =>
      cases d with
      | false =>
        exact SimOut_now (show ConfigR _ _ from ⟨rfl, hfin, hms, hst, rfl, rfl⟩)
      | true =>
        cases slot with
        | none =>
          exact SimOut_now (show ConfigR _ _ from ⟨rfl, hfin, hms, hst, rfl, rfl⟩)
        | some rid =>
          exact SimOut_now (performTailResumeSim (FibR.base k f1 f2 true hfin) hms hst)
    | wrap g1 f2 hf hdr =>
      cases slot with
      | some rid =>
        have h1 : deliverFib v fib1 ms1 st1 (some rid) fc
            = performTailResume rid fib1 ms1 st1 fc := by
          unfold deliverFib
          rw [if_pos hdr]
        rw [h1]
        exact SimOut_now (performTailResumeSim (FibR.wrap fib1 f2 hf hdr) hms hst)
      | none =>
        have hdep2 : fibDepth f2 ≤ n := by
          simp only [fibDepth, finDepth] at hdep
          omega
        obtain ⟨r', hreach, hrel⟩ := ih fib1 f2 hdep2 hf
        refine ⟨r', ?_, hrel⟩
        show resReach (.next { cur := Comp.ret v, fin := .toFiber f2,
                               metastack := ms2, store := st2,
                               tail_resumption := Option.none,
                               freshCounter := fc }) r'
        exact resReach.head _ r' hreach

lemma deliverFibSim' {v : Int} {fib1 fib2 : Fiber} {ms1 ms2 : List Frame}
    {st1 st2 : List (Option ResData)} {slot : Option Nat} {fc : Int}
    (hfib : FibR fib1 fib2) (hms : List.Forall₂ FrameR ms1 ms2)
    (hst : List.Forall₂ EntryR st1 st2) :
    SimOut (deliverFib v fib1 ms1 st1 slot fc)
           (deliverFib v fib2 ms2 st2 slot fc) :=
  deliverFibSim hms hst (fibDepth fib2) fib1 fib2 le_rfl hfib

lemma deliverTopSim {v : Int} {ms1 ms2 : List Frame}
    {st1 st2 : List (Option ResData)} {slot : Option Nat} {fc : Int}
    (hms : List.Forall₂ FrameR ms1 ms2) (hst : List.Forall₂ EntryR st1 st2) :
    SimOut (deliverTop v ms1 st1 slot fc) (deliverTop v ms2 st2 slot fc) := by
  unfold deliverTop
  cases hms with
  | nil => exact SimOut_now rfl
  | cons hX hr =>
    rcases OptFibR_destruct hX.fbr with ⟨h1, h2⟩ | ⟨f1, f2, h1, h2, hf⟩
    · simp only [h1, h2]
      exact SimOut_now rfl
    · simp only [h1, h2]
      exact deliverFibSim' hf
        (List.Forall₂.cons ⟨hX.lab, hX.hdr, OptFibR.none⟩ hr) hst

lemma forall₂_setHeadFiber {l1 l2 : List Frame}
    (h : List.Forall₂ FrameR l1 l2) {f1 f2 : Option Fiber}
    (hf : OptFibR f1 f2) :
    List.Forall₂ FrameR (setHeadFiber l1 f1) (setHeadFiber l2 f2) := by
  cases h with
  | nil => exact List.Forall₂.nil
  | cons hX hr => exact List.Forall₂.cons ⟨hX.lab, hX.hdr, hf⟩ hr

lemma setHeadFiber_hd {l : List Frame} {f : Option Fiber} {T : Frame}
    (h : (setHeadFiber l f).head? = some T) : T.fiber = f := by
  cases l with
  | nil => exact Option.noConfusion h
  | cons X r =>
    injection h with h
    subst h
    rfl

/-- The `plain` dispatch path (clause-modifiers.h lines 45-76): the fibers
of the handler frame and of the running frame are swapped, the clause runs
as a plain function call, the fibers are swapped back, and the metastack
is restored to its exact pre-invocation shape; the clause's return value
is handed to the invoker's continuation `k` — `invoke_command` returns it
— and the only side effect is the untouched (empty) slot of this
activation. -/
lemma dispatch_plain_eq {cfg : Config} {i : Nat} {c : CmdTy} {arg : Int}
    {k : Int → Comp} {F : Frame} {f : Int → Int}
    (hF : cfg.metastack[i]? = some F)
    (hcl : clauseLookup F c = .plainClause f) :
    dispatchAt i c arg k cfg = .next
      { cur := k (f arg), fin := cfg.fin, metastack := cfg.metastack,
        store := cfg.store ++ [Option.none],
        tail_resumption := cfg.tail_resumption,
        freshCounter := cfg.freshCounter } := by
  unfold dispatchAt
  simp only [hF, hcl, swapHeadFibers_swapHeadFibers, List.take_append_drop]

lemma dispatch_normal_eq {cfg : Config} {i : Nat} {c : CmdTy} {arg : Int}
    {k : Int → Comp} {F X : Frame} {rest : List Frame} {retFib : Fiber}
    {body : Int → Nat → Comp}
    (hF : cfg.metastack[i]? = some F)
    (hcl : clauseLookup F c = .normal body)
    (hdrop : cfg.metastack.drop (i+1) = X :: rest)
    (hXf : X.fiber = some retFib) :
    dispatchAt i c arg k cfg = .next
      { cur := body arg cfg.store.length, fin := .toFiber retFib,
        metastack := { X with fiber := Option.none } :: rest,
        store := cfg.store ++ [some ⟨setHeadFiber (cfg.metastack.take (i+1))
                   (some (Fiber.mk k cfg.fin false)), Option.none⟩],
        tail_resumption := cfg.tail_resumption,
        freshCounter := cfg.freshCounter } := by
  unfold dispatchAt
  simp only [hF, hcl, hdrop, hXf]

lemma dispatch_normal_nil {cfg : Config} {i : Nat} {c : CmdTy} {arg : Int}
    {k : Int → Comp} {F : Frame} {body : Int → Nat → Comp}
    (hF : cfg.metastack[i]? = some F)
    (hcl : clauseLookup F c = .normal body)
    (hdrop : cfg.metastack.drop (i+1) = []) :
    dispatchAt i c arg k cfg = .undef := by
  unfold dispatchAt
  simp only [hF, hcl, hdrop]

lemma dispatch_normal_nofib {cfg : Config} {i : Nat} {c : CmdTy} {arg : Int}
    {k : Int → Comp} {F X : Frame} {rest : List Frame}
    {body : Int → Nat → Comp}
    (hF : cfg.metastack[i]? = some F)
    (hcl : clauseLookup F c = .normal body)
    (hdrop : cfg.metastack.drop (i+1) = X :: rest)
    (hXf : X.fiber = Option.none) :
    dispatchAt i c arg k cfg = .undef := by
  unfold dispatchAt
  simp only [hF, hcl, hdrop, hXf]

lemma dispatch_noresume_eq {cfg : Config} {i : Nat} {c : CmdTy} {arg : Int}
    {k : Int → Comp} {F X : Frame} {rest : List Frame} {retFib : Fiber}
    {body : Int → Comp}
    (hF : cfg.metastack[i]? = some F)
    (hcl : clauseLookup F c = .noResumeClause body)
    (hdrop : cfg.metastack.drop (i+1) = X :: rest)
    (hXf : X.fiber = some retFib) :
    dispatchAt i c arg k cfg = .next
      { cur := body arg, fin := .toFiber retFib,
        metastack := { X with fiber := Option.none } :: rest,
        store := cfg.store ++ [Option.none],
        tail_resumption := cfg.tail_resumption,
        freshCounter := cfg.freshCounter } := by
  unfold dispatchAt
  simp only [hF, hcl, hdrop, hXf]

lemma dispatch_noresume_nil {cfg : Config} {i : Nat} {c : CmdTy} {arg : Int}
    {k : Int → Comp} {F : Frame} {body : Int → Comp}
    (hF : cfg.metastack[i]? = some F)
    (hcl : clauseLookup F c = .noResumeClause body)
    (hdrop : cfg.metastack.drop (i+1) = []) :
    dispatchAt i c arg k cfg = .undef := by
  unfold dispatchAt
  simp only [hF, hcl, hdrop]

lemma dispatch_noresume_nofib {cfg : Config} {i : Nat} {c : CmdTy} {arg : Int}
    {k : Int → Comp} {F X : Frame} {rest : List Frame} {body : Int → Comp}
    (hF : cfg.metastack[i]? = some F)
    (hcl : clauseLookup F c = .noResumeClause body)
    (hdrop : cfg.metastack.drop (i+1) = X :: rest)
    (hXf : X.fiber = Option.none) :
    dispatchAt i c arg k cfg = .undef := by
  unfold dispatchAt
  simp only [hF, hcl, hdrop, hXf]

/-- `resume` on the freshly created resumption sitting in the last store
slot: splice the captured frames back, continue at the captured invoke
site, consume the slot. -/
lemma step_resume_fresh {v : Int} {kk : Int → Comp} {T X : Frame}
    {so ro : List Frame} {tf : Fiber} {st : List (Option ResData)}
    {fin : FinishK} {slot : Option Nat} {fc : Int}
    (hT : T.fiber = some tf) :
    step { cur := Comp.resumeR st.length v kk, fin := fin,
           metastack := X :: ro,
           store := st ++ [some ⟨T :: so, Option.none⟩],
           tail_resumption := slot, freshCounter := fc }
      = .next { cur := tf.k v, fin := tf.fin,
                metastack := ({ T with fiber := Option.none } :: so)
                  ++ ({ X with fiber := some (Fiber.mk kk fin true) } :: ro),
                store := st ++ [some ⟨[], Option.none⟩],
                tail_resumption := slot, freshCounter := fc } := by
  unfold step
  simp only [List.getElem?_concat_length, hT]
  rw [List.set_append_right _ _ (Nat.le_refl _)]
  simp

lemma dispatchAtSim {i : Nat} {c : CmdTy} {arg : Int} {k : Int → Comp}
    {c1 c2 : Config} (hR : ConfigR c1 c2) (hOK : ConfigOK c1)
    {F1 : Frame} (hF1 : c1.metastack[i]? = some F1)
    (hdec : declares F1 c = true) :
    SimOut (dispatchAt i c arg k c1) (dispatchAt i c arg k c2) := by
  obtain ⟨hcur, hfin, hms, hst, hslot, hfc⟩ := hR
  obtain ⟨hhn, hfr, hsb, hstOK⟩ := hOK
  rcases forall₂_getElem? hms i with ⟨g1, g2⟩ | ⟨F1', F2, g1, g2, hFR⟩
  · rw [hF1] at g1
    exact Option.noConfusion g1
  rw [hF1] at g1
  injection g1 with g1
  subst g1
  have hclR := FrameR_clauseLookup hFR c
  have hlen := hst.length_eq
  have hdropR := List.forall₂_drop (i+1) hms
  rcases hcl1 : clauseLookup F1 c with _ | body | f | body
  · -- a frame found by dispatch declares the command: its clause is not `none`
    exfalso
    unfold declares at hdec
    rcases hh : F1.hdef with _ | hd
    · simp only [hh] at hdec
      exact Bool.noConfusion hdec
    · simp only [hh] at hdec
      unfold clauseLookup at hcl1
      simp only [hh] at hcl1
      simp only [hcl1] at hdec
      exact Bool.noConfusion hdec
  · -- `normal` clause on the left: the clauses agree, lockstep dispatch
    rw [hcl1] at hclR
    obtain ⟨cl2v, hcg, hclR'⟩ :
        (∃ x, clauseLookup F2 c = x ∧ ClauseR (.normal body) x) := ⟨_, rfl, hclR⟩
    cases hclR'
    rcases forall₂_destruct hdropR with ⟨hd1, hd2⟩ | ⟨X1, X2, r1, r2, hd1, hd2, hXR, hrR⟩
    · rw [dispatch_normal_nil hF1 hcl1 hd1, dispatch_normal_nil g2 hcg hd2]
      exact SimOut_now rfl
    rcases OptFibR_destruct hXR.fbr with ⟨hx1, hx2⟩ | ⟨rf1, rf2, hx1, hx2, hrfR⟩
    · rw [dispatch_normal_nofib hF1 hcl1 hd1 hx1,
          dispatch_normal_nofib g2 hcg hd2 hx2]
      exact SimOut_now rfl
    rw [dispatch_normal_eq hF1 hcl1 hd1 hx1, dispatch_normal_eq g2 hcg hd2 hx2]
    refine SimOut_now (show ConfigR _ _ from
      ⟨by rw [hlen], FinR.toFiber _ _ hrfR,
       List.Forall₂.cons ⟨hXR.lab, hXR.hdr, OptFibR.none⟩ hrR,
       List.rel_append hst (List.Forall₂.cons (EntryR.some _ _
         ⟨forall₂_setHeadFiber (List.forall₂_take (i+1) hms)
            (OptFibR.some _ _ (FibR.base k c1.fin c2.fin false hfin)),
          ?_, rfl⟩) List.Forall₂.nil),
       hslot, hfc⟩)
    intro T1 T2 h1 h2
    exact Or.inr ⟨_, _, setHeadFiber_hd h1, setHeadFiber_hd h2,
                  FibRB.base k c1.fin c2.fin false hfin⟩
  · -- `plain` clause on the left
    rw [hcl1] at hclR
    obtain ⟨cl2v, hcg, hclR'⟩ :
        (∃ x, clauseLookup F2 c = x ∧ ClauseR (.plainClause f) x) := ⟨_, rfl, hclR⟩
    cases hclR' with
    | refl =>
      -- the right side carries the same `plain` clause: lockstep
      rw [dispatch_plain_eq hF1 hcl1, dispatch_plain_eq g2 hcg]
      exact SimOut_now (show ConfigR _ _ from
        ⟨rfl, hfin, hms,
         List.rel_append hst (List.Forall₂.cons EntryR.none List.Forall₂.nil),
         hslot, hfc⟩)
    | variant =>
      -- the right side carries the self-resumptive original: the left takes
      -- one plain step, the right dispatches and immediately resumes
      have hne : c1.metastack.drop (i+1) ≠ [] :=
        drop_ne_nil_of_sentinel hsb hF1 (declares_hdef hdec)
      rcases forall₂_destruct hdropR with ⟨hd1, hd2⟩
        | ⟨X1, X2, r1, r2, hd1, hd2, hXR, hrR⟩
      · exact absurd hd1 hne
      rcases hmm1 : c1.metastack with _ | ⟨T1, tl1⟩
      · rw [hmm1] at hF1
        simp at hF1
      have hmsC := hms
      rw [hmm1] at hmsC
      rcases forall₂_destruct hmsC with ⟨q1, _⟩ | ⟨T1', T2, tl1', tl2, q1, hmm2, hT12, htl⟩
      · exact List.noConfusion q1
      injection q1 with q1a q1b
      subst q1a
      subst q1b
      have hT1f : T1.fiber = Option.none := by
        rw [hmm1] at hhn
        exact hhn
      have hd1' : tl1.drop i = X1 :: r1 := by
        rw [hmm1] at hd1
        exact hd1
      have hX1mem : X1 ∈ tl1 := by
        have hsub := List.drop_subset i tl1
        rw [hd1'] at hsub
        exact hsub (List.mem_cons_self X1 r1)
      have hfr' : ∀ F ∈ tl1, ∃ fib, F.fiber = some fib ∧ fib.drains = true := by
        rw [hmm1] at hfr
        exact hfr
      obtain ⟨xf1, hxf1, hxd1⟩ := hfr' X1 hX1mem
      have hxfR : OptFibR (some xf1) X2.fiber := by
        rw [← hxf1]
        exact hXR.fbr
      rcases OptFibR_destruct hxfR with ⟨hq, _⟩ | ⟨xf1', xf2, hq1, hx2, hxR2⟩
      · exact Option.noConfusion hq
      injection hq1 with hq1
      subst hq1
      rw [dispatch_plain_eq hF1 hcl1, dispatch_normal_eq g2 hcg hd2 hx2]
      refine ⟨.next
        { cur := k (f arg), fin := c2.fin,
          metastack := ({ T2 with fiber := Option.none } :: tl2.take i)
            ++ ({ X2 with fiber := some (Fiber.mk (fun ans => Comp.ret ans)
                     (.toFiber xf2) true) } :: r2),
          store := c2.store ++ [some ⟨[], Option.none⟩],
          tail_resumption := c2.tail_resumption,
          freshCounter := c2.freshCounter }, ?_, ?_⟩
      · -- the unmodified machine's second step: the clause resumes at once
        refine resReach.head _ _ ?_
        rw [hmm2]
        simp only [List.take_succ_cons, setHeadFiber]
        have hTf : ({ T2 with fiber := some (Fiber.mk k c2.fin false) } : Frame).fiber
            = some (Fiber.mk k c2.fin false) := rfl
        rw [step_resume_fresh hTf]
        exact resReach.refl _
      · -- the results are related: wrapper fiber, garbage slot
        show ConfigR _ _
        refine ⟨rfl, hfin, ?_, ?_, hslot, hfc⟩
        · rw [hmm1]
          have hsplit : T1 :: tl1 = (T1 :: tl1.take i) ++ (X1 :: r1) := by
            rw [List.cons_append, ← hd1', List.take_append_drop]
          rw [hsplit]
          refine List.rel_append
            (List.Forall₂.cons ⟨hT12.lab, hT12.hdr, ?_⟩ (List.forall₂_take i htl))
            (List.Forall₂.cons ⟨hXR.lab, hXR.hdr, ?_⟩ hrR)
          · rw [hxf1]
            exact OptFibR.some _ _ (FibR.wrap xf1 xf2 hxR2 hxd1)
          · rw [hT1f]
            exact OptFibR.none
        · exact List.rel_append hst
            (List.Forall₂.cons EntryR.garbage List.Forall₂.nil)
  · -- `no_resume` clause on the left: the clauses agree, lockstep
    rw [hcl1] at hclR
    obtain ⟨cl2v, hcg, hclR'⟩ :
        (∃ x, clauseLookup F2 c = x ∧ ClauseR (.noResumeClause body) x) :=
      ⟨_, rfl, hclR⟩
    cases hclR'
    rcases forall₂_destruct hdropR with ⟨hd1, hd2⟩ | ⟨X1, X2, r1, r2, hd1, hd2, hXR, hrR⟩
    · rw [dispatch_noresume_nil hF1 hcl1 hd1, dispatch_noresume_nil g2 hcg hd2]
      exact SimOut_now rfl
    rcases OptFibR_destruct hXR.fbr with ⟨hx1, hx2⟩ | ⟨rf1, rf2, hx1, hx2, hrfR⟩
    · rw [dispatch_noresume_nofib hF1 hcl1 hd1 hx1,
          dispatch_noresume_nofib g2 hcg hd2 hx2]
      exact SimOut_now rfl
    rw [dispatch_noresume_eq hF1 hcl1 hd1 hx1, dispatch_noresume_eq g2 hcg hd2 hx2]
    exact SimOut_now (show ConfigR _ _ from
      ⟨rfl, FinR.toFiber _ _ hrfR,
       List.Forall₂.cons ⟨hXR.lab, hXR.hdr, OptFibR.none⟩ hrR,
       List.rel_append hst (List.Forall₂.cons EntryR.none List.Forall₂.nil),
       hslot, hfc⟩)

lemma FinR_destruct {a b : FinishK} (h : FinR a b) :
    (a = .halt ∧ b = .halt) ∨ (a = .popRet ∧ b = .popRet)
    ∨ ∃ f1 f2, a = .toFiber f1 ∧ b = .toFiber f2 ∧ FibR f1 f2 := by
  cases h with
  | halt => exact Or.inl ⟨rfl, rfl⟩
  | popRet => exact Or.inr (Or.inl ⟨rfl, rfl⟩)
  | toFiber f1 f2 hf => exact Or.inr (Or.inr ⟨f1, f2, rfl, rfl, hf⟩)

lemma OptHR_destruct {a b : Option HandlerDef} (h : OptHR a b) :
    (a = Option.none ∧ b = Option.none)
    ∨ ∃ h1 h2, a = some h1 ∧ b = some h2 ∧ HandlerR h1 h2 := by
  cases h with
  | none => exact Or.inl ⟨rfl, rfl⟩
  | some h1 h2 hh => exact Or.inr ⟨h1, h2, rfl, rfl, hh⟩

lemma HandlerR_retClause {h1 h2 : HandlerDef} (h : HandlerR h1 h2) :
    h1.retClause = h2.retClause := by
  cases h with
  | mk d cl1 cl2 r hcl => rfl

lemma stepSim {c1 c2 : Config} (hR : ConfigR c1 c2) (hOK : ConfigOK c1) :
    SimOut (step c1) (step c2) := by
  have hcurE := hR.cur
  have hfin := hR.fin
  have hms := hR.ms
  have hst := hR.store
  have hslot := hR.slot
  have hfc := hR.fc
  rcases hcur : c1.cur with
    v | ⟨c, arg, k⟩ | ⟨lbl, c, arg, k⟩ | ⟨c, arg, k⟩ | ⟨lbl, c, arg, k⟩
      | ⟨lblOpt, hdl, body, kk⟩ | ⟨rid, v, kk⟩ | ⟨rid, v, kk⟩
  all_goals
    (have hcur2 : c2.cur = c1.cur := by rw [← hcurE]
     rw [hcur] at hcur2
     unfold step
     simp only [hcur, hcur2])
  · -- ret
    rcases FinR_destruct hfin with ⟨h1, h2⟩ | ⟨h1, h2⟩ | ⟨f1, f2, h1, h2, hf⟩
    · simp only [h1, h2]
      exact SimOut_now rfl
    · simp only [h1, h2]
      rcases forall₂_destruct hms with ⟨hn1, hn2⟩ | ⟨F1, F2, rest1, rest2, hc1, hc2, hFR, hrest⟩
      · simp only [hn1, hn2]
        exact SimOut_now rfl
      simp only [hc1, hc2]
      rcases OptHR_destruct hFR.hdr with ⟨hh1, hh2⟩ | ⟨hd1, hd2, hh1, hh2, hhr⟩
      · simp only [hh1, hh2]
        exact SimOut_now rfl
      simp only [hh1, hh2]
      rw [HandlerR_retClause hhr, hslot, hfc]
      exact deliverTopSim hrest hst
    · simp only [h1, h2]
      rw [hslot, hfc]
      exact deliverFibSim' hf hms hst
  · -- invoke
    have hfind := findHandlerIdx_eq hms c
    rcases hfi : findHandlerIdx c1.metastack c with _ | i
    · have hfi2 : findHandlerIdx c2.metastack c = Option.none := by
        rw [← hfind]
        exact hfi
      simp only [hfi, hfi2]
      rw [dump_eq hms]
      exact SimOut_now rfl
    · have hfi2 : findHandlerIdx c2.metastack c = some i := by
        rw [← hfind]
        exact hfi
      simp only [hfi, hfi2]
      obtain ⟨F1, hF1, hdec⟩ := findIdx?_some_prop hfi
      exact dispatchAtSim hR hOK hF1 hdec
  · -- invokeLbl
    have hfind := findLabelIdx_eq hms lbl
    rcases hfi : findLabelIdx c1.metastack lbl with _ | i
    · have hfi2 : findLabelIdx c2.metastack lbl = Option.none := by
        rw [← hfind]
        exact hfi
      simp only [hfi, hfi2]
      exact SimOut_now rfl
    · have hfi2 : findLabelIdx c2.metastack lbl = some i := by
        rw [← hfind]
        exact hfi
      simp only [hfi, hfi2]
      rcases forall₂_getElem? hms i with ⟨g1, g2⟩ | ⟨F1, F2, g1, g2, hFR⟩
      · simp only [g1, g2]
        exact SimOut_now rfl
      simp only [g1, g2]
      have hdeq := FrameR_declares hFR c
      rcases hdec1 : declares F1 c with _ | _
      · have hdec2 : declares F2 c = false := by rw [← hdeq]; exact hdec1
        simp only [hdec1, hdec2]
        rw [dump_eq hms]
        exact SimOut_now rfl
      · have hdec2 : declares F2 c = true := by rw [← hdeq]; exact hdec1
        simp only [hdec1, hdec2]
        simp only [if_true]
        exact dispatchAtSim hR hOK g1 hdec1
  · -- staticInvoke
    rcases forall₂_destruct hms with ⟨hn1, hn2⟩ | ⟨F1, F2, rest1, rest2, hc1, hc2, hFR, hrest⟩
    · simp only [hn1, hn2]
      exact SimOut_now rfl
    simp only [hc1, hc2]
    have hdeq := FrameR_declares hFR c
    rcases hdec1 : declares F1 c with _ | _
    · have hdec2 : declares F2 c = false := by rw [← hdeq]; exact hdec1
      simp only [hdec1, hdec2]
      exact SimOut_now rfl
    · have hdec2 : declares F2 c = true := by rw [← hdeq]; exact hdec1
      simp only [hdec1, hdec2, if_true]
      have hF1 : c1.metastack[0]? = some F1 := by
        rw [hc1]
        simp
      exact dispatchAtSim hR hOK hF1 hdec1
  · -- staticInvokeLbl
    have hfind := findLabelIdx_eq hms lbl
    rcases hfi : findLabelIdx c1.metastack lbl with _ | i
    · have hfi2 : findLabelIdx c2.metastack lbl = Option.none := by
        rw [← hfind]
        exact hfi
      simp only [hfi, hfi2]
      rw [dump_eq hms]
      exact SimOut_now rfl
    · have hfi2 : findLabelIdx c2.metastack lbl = some i := by
        rw [← hfind]
        exact hfi
      simp only [hfi, hfi2]
      rcases forall₂_getElem? hms i with ⟨g1, g2⟩ | ⟨F1, F2, g1, g2, hFR⟩
      · simp only [g1, g2]
        exact SimOut_now rfl
      simp only [g1, g2]
      have hdeq := FrameR_declares hFR c
      rcases hdec1 : declares F1 c with _ | _
      · have hdec2 : declares F2 c = false := by rw [← hdeq]; exact hdec1
        simp only [hdec1, hdec2]
        exact SimOut_now rfl
      · have hdec2 : declares F2 c = true := by rw [← hdeq]; exact hdec1
        simp only [hdec1, hdec2, if_true]
        exact dispatchAtSim hR hOK g1 hdec1
  · -- handleC
    rcases forall₂_destruct hms with ⟨hn1, hn2⟩ | ⟨X1, X2, rest1, rest2, hc1, hc2, hXR, hrest⟩
    · simp only [hn1, hn2]
      exact SimOut_now rfl
    simp only [hc1, hc2]
    rcases lblOpt with _ | l
    · exact SimOut_now (show ConfigR _ _ from
        ⟨rfl, FinR.popRet,
         List.Forall₂.cons ⟨by rw [hfc], OptHR.some _ _ (HandlerR_refl hdl), OptFibR.none⟩
           (List.Forall₂.cons
             ⟨hXR.lab, hXR.hdr, OptFibR.some _ _ (FibR.base kk c1.fin c2.fin true hfin)⟩
             hrest),
         hst, hslot, by rw [hfc]⟩)
    · exact SimOut_now (show ConfigR _ _ from
        ⟨rfl, FinR.popRet,
         List.Forall₂.cons ⟨rfl, OptHR.some _ _ (HandlerR_refl hdl), OptFibR.none⟩
           (List.Forall₂.cons
             ⟨hXR.lab, hXR.hdr, OptFibR.some _ _ (FibR.base kk c1.fin c2.fin true hfin)⟩
             hrest),
         hst, hslot, hfc⟩)
  · -- resumeR
    rcases forall₂_getElem? hst rid with ⟨he1, he2⟩ | ⟨e1, e2, he1, he2, heR⟩
    · simp only [he1, he2]
      exact SimOut_now rfl
    cases heR with
    | none =>
      simp only [he1, he2]
      exact SimOut_now rfl
    | garbage =>
      simp only [he1, he2]
      exact SimOut_now rfl
    | some rd1 rd2 hrd =>
      obtain ⟨hstk, hhd, hbuf⟩ := hrd
      simp only [he1, he2]
      rcases forall₂_destruct hstk with ⟨hs1, hs2⟩ | ⟨T1, T2, o1, o2, hs1, hs2, hT, ho⟩
      · simp only [hs1, hs2]
        exact SimOut_now rfl
      simp only [hs1, hs2]
      rcases forall₂_destruct hms with ⟨hn1, hn2⟩ | ⟨X1, X2, rest1, rest2, hc1, hc2, hXR, hrest⟩
      · simp only [hn1, hn2]
        exact SimOut_now rfl
      simp only [hc1, hc2]
      rcases hhd T1 T2 (by rw [hs1]; rfl) (by rw [hs2]; rfl) with
        ⟨ht1, ht2⟩ | ⟨tf1, tf2, ht1, ht2, htfR⟩
      · simp only [ht1, ht2]
        exact SimOut_now rfl
      simp only [ht1, ht2]
      cases htfR with
      | base kf f1 f2 d hfin2 =>
        refine SimOut_now (show ConfigR _ _ from
          ⟨rfl, hfin2,
           List.rel_append
             (List.Forall₂.cons ⟨hT.lab, hT.hdr, OptFibR.none⟩ ho)
             (List.Forall₂.cons
               ⟨hXR.lab, hXR.hdr,
                OptFibR.some _ _ (FibR.base kk c1.fin c2.fin true hfin)⟩ hrest),
           forall₂_set hst (EntryR.some _ _ ⟨List.Forall₂.nil, ?_, rfl⟩) rid,
           hslot, hfc⟩)
        intro A B hA hB
        exact Option.noConfusion hA
  · -- tailResumeR
    rcases forall₂_getElem? hst rid with ⟨he1, he2⟩ | ⟨e1, e2, he1, he2, heR⟩
    · simp only [he1, he2]
      exact SimOut_now rfl
    cases heR with
    | none =>
      simp only [he1, he2]
      exact SimOut_now rfl
    | garbage =>
      simp only [he1, he2]
      exact SimOut_now rfl
    | some rd1 rd2 hrd =>
      simp only [he1, he2]
      rcases forall₂_destruct hrd.stk with ⟨hs1, hs2⟩ | ⟨T1, T2, o1, o2, hs1, hs2, hT, ho⟩
      · simp only [hs1, hs2, List.isEmpty_nil]
        exact SimOut_now rfl
      simp only [hs1, hs2, List.isEmpty_cons, Bool.false_eq_true, if_false]
      refine SimOut_now (show ConfigR _ _ from
        ⟨rfl, hfin, hms,
         forall₂_set hst (EntryR.some ⟨T1 :: o1, some v⟩ ⟨T2 :: o2, some v⟩
           ⟨List.Forall₂.cons hT ho, ?_, rfl⟩) rid,
         rfl, hfc⟩)
      intro A B hA hB
      injection hA with hA
      injection hB with hB
      subst hA
      subst hB
      exact hrd.hd T1 T2 (by rw [hs1]; rfl) (by rw [hs2]; rfl)

/-! From the step simulation to whole-run equivalence. -/

/-- Continue a run from an already-computed step result. -/
def runFrom : StepRes → Nat → Option FinalRes
  | .next c, n => run n c
  | .done v, _ => some (.value v)
  | .exitFail d, _ => some (.exited d)
  | .undef, _ => some .ub

lemma run_succ_from (cfg : Config) (n : Nat) :
    run (n+1) cfg = runFrom (step cfg) n := by
  rw [run_succ]
  cases step cfg <;> rfl

lemma reach_runFrom {r r' : StepRes} (h : resReach r r') {n : Nat}
    {res : FinalRes} (hr : runFrom r' n = some res) :
    ∃ m, runFrom r m = some res := by
  induction h with
  | refl r => exact ⟨n, hr⟩
  | head c r hsub ih =>
    obtain ⟨m, hm⟩ := ih hr
    refine ⟨m+1, ?_⟩
    show run (m+1) c = some res
    rw [run_succ_from]
    exact hm

lemma reach_runFrom_rev {r r' : StepRes} (h : resReach r r') :
    ∀ {k : Nat} {res : FinalRes}, runFrom r k = some res →
      ∃ m, m ≤ k ∧ runFrom r' m = some res := by
  induction h with
  | refl r =>
    intro k res hk
    exact ⟨k, le_rfl, hk⟩
  | head c r hsub ih =>
    intro k res hk
    cases k with
    | zero =>
      have hk0 : run 0 c = some res := hk
      simp [run] at hk0
    | succ q =>
      have h2 : runFrom (step c) q = some res := by
        rw [← run_succ_from]
        exact hk
      obtain ⟨m, hm, hres⟩ := ih h2
      exact ⟨m, Nat.le_succ_of_le hm, hres⟩

lemma run_agree : ∀ {n : Nat} {cfg : Config} {a : FinalRes} {m : Nat}
    {b : FinalRes}, run n cfg = some a → run m cfg = some b → a = b := by
  intro n
  induction n with
  | zero =>
    intro cfg a m b ha
    simp [run] at ha
  | succ n ih =>
    intro cfg a m b ha hb
    cases m with
    | zero => simp [run] at hb
    | succ q =>
      rw [run_succ_from] at ha hb
      rcases hs : step cfg with c' | v | d | _
      all_goals rw [hs] at ha hb
      · exact ih ha hb
      · injection ha with ha
        injection hb with hb
        rw [← ha, ← hb]
      · injection ha with ha
        injection hb with hb
        rw [← ha, ← hb]
      · injection ha with ha
        injection hb with hb
        rw [← ha, ← hb]

lemma runSim : ∀ (n1 : Nat) {c1 c2 : Config} {res : FinalRes},
    ConfigR c1 c2 → ConfigOK c1 → run n1 c1 = some res →
    ∃ n2, run n2 c2 = some res := by
  intro n1
  induction n1 with
  | zero =>
    intro c1 c2 res hR hOK h
    simp [run] at h
  | succ n ih =>
    intro c1 c2 res hR hOK h
    rw [run_succ_from] at h
    obtain ⟨r', hreach, hrel⟩ := stepSim hR hOK
    rcases hs : step c1 with c1' | v | d | _
    all_goals rw [hs] at h hrel
    · -- one more related step on the left
      rcases hr' : r' with c2' | w | d | _
      all_goals rw [hr'] at hrel hreach
      case next =>
        have hOK' := step_OK hOK hs
        obtain ⟨m, hm⟩ := ih hrel hOK' h
        obtain ⟨m2, hm2⟩ := reach_runFrom hreach (n := m) hm
        exact ⟨m2+1, by rw [run_succ_from]; exact hm2⟩
      case done => exact StepRes.noConfusion hrel
      case exitFail => exact StepRes.noConfusion hrel
      case undef => exact StepRes.noConfusion hrel
    · -- left terminates with a value
      have hrel' : StepRes.done v = r' := hrel
      rw [← hrel'] at hreach
      have hres : res = .value v := by
        have h2 : some (FinalRes.value v) = some res := h
        injection h2 with h2
        rw [← h2]
      subst hres
      obtain ⟨m2, hm2⟩ := reach_runFrom hreach (n := 0) rfl
      exact ⟨m2+1, by rw [run_succ_from]; exact hm2⟩
    · -- left exits after diagnostics
      have hrel' : StepRes.exitFail d = r' := hrel
      rw [← hrel'] at hreach
      have hres : res = .exited d := by
        have h2 : some (FinalRes.exited d) = some res := h
        injection h2 with h2
        rw [← h2]
      subst hres
      obtain ⟨m2, hm2⟩ := reach_runFrom hreach (n := 0) rfl
      exact ⟨m2+1, by rw [run_succ_from]; exact hm2⟩
    · -- left hits undefined behaviour
      have hrel' : StepRes.undef = r' := hrel
      rw [← hrel'] at hreach
      have hres : res = .ub := by
        have h2 : some FinalRes.ub = some res := h
        injection h2 with h2
        rw [← h2]
      subst hres
      obtain ⟨m2, hm2⟩ := reach_runFrom hreach (n := 0) rfl
      exact ⟨m2+1, by rw [run_succ_from]; exact hm2⟩

lemma runTermRev : ∀ (n2 : Nat) {c1 c2 : Config} {res2 : FinalRes},
    ConfigR c1 c2 → ConfigOK c1 → run n2 c2 = some res2 →
    ∃ n1 res1, run n1 c1 = some res1 := by
  intro n2
  induction n2 using Nat.strong_induction_on with
  | _ n2 ih =>
    intro c1 c2 res2 hR hOK h
    obtain ⟨r', hreach, hrel⟩ := stepSim hR hOK
    rcases hs : step c1 with c1' | v | d | _
    all_goals rw [hs] at hrel
    · rcases hr' : r' with c2' | w | d | _
      all_goals rw [hr'] at hrel hreach
      case next =>
        cases n2 with
        | zero => simp [run] at h
        | succ q =>
          rw [run_succ_from] at h
          obtain ⟨m, hmk, hm⟩ := reach_runFrom_rev hreach h
          have hOK' := step_OK hOK hs
          obtain ⟨n1', res1', h1⟩ := ih m (by omega) hrel hOK' hm
          exact ⟨n1'+1, res1', by rw [run_succ_from, hs]; exact h1⟩
      case done => exact StepRes.noConfusion hrel
      case exitFail => exact StepRes.noConfusion hrel
      case undef => exact StepRes.noConfusion hrel
    · exact ⟨1, .value v, by rw [run_succ_from, hs]; rfl⟩
    · exact ⟨1, .exited d, by rw [run_succ_from, hs]; rfl⟩
    · exact ⟨1, .ub, by rw [run_succ_from, hs]; rfl⟩

/-- Observable equivalence of two related, invariant-satisfying
configurations: they produce exactly the same final results. -/
lemma runEquiv {c1 c2 : Config} (hR : ConfigR c1 c2) (hOK : ConfigOK c1)
    (res : FinalRes) :
    (∃ n, run n c1 = some res) ↔ (∃ n, run n c2 = some res) := by
  constructor
  · intro ⟨n, h⟩
    exact runSim n hR hOK h
  · intro ⟨n2, h2⟩
    obtain ⟨n1, res1, h1⟩ := runTermRev n2 hR hOK h2
    obtain ⟨m, hm⟩ := runSim n1 hR hOK h1
    have := run_agree hm h2
    rw [← this]
    exact ⟨n1, h1⟩

lemma run_shift (cfg cfg' : Config) (h : step cfg = .next cfg')
    (res : FinalRes) :
    (∃ n, run n cfg = some res) ↔ (∃ n, run n cfg' = some res) := by
  constructor
  · intro ⟨n, hn⟩
    cases n with
    | zero => simp [run] at hn
    | succ m =>
      rw [run_succ_from, h] at hn
      exact ⟨m, hn⟩
  · intro ⟨n, hn⟩
    exact ⟨n+1, by rw [run_succ_from, h]; exact hn⟩

/-- Claim C7: for every handler whose command clause is self-resumptive —
`selfResClause f` hands the clause's answer `f a` straight back to the
invoke site by resuming the captured resumption at its own call site —
replacing the clause by its `plain`-modifier counterpart
(`ClauseRes.plainClause f`, clause-modifiers.h lines 45-76) yields
identical observable results for every handled computation.  Part (a):
the plain dispatch path swaps the fibers of the handler frame and of the
running frame, runs the clause as a function, swaps back, and restores
the metastack to its exact pre-invocation shape, with the clause's return
value returned from `invoke_command` into the invoker's continuation;
only the activation's store slot (allocation count) differs — it stays
empty.  Part (b): for every declared-command list, return clause, handled
body and continuation, the whole program that installs the plain-clause
handler produces exactly the same final results (value, diagnostic exit,
or undefined behaviour) as the one installing the self-resumptive
handler, fuel quantified existentially on each side. -/
theorem C7_plain_modifier_equivalence
    (d : List CmdTy) (cl1 cl2 : CmdTy → ClauseRes) (r : Int → Int)
    (hcl : ∀ c, ClauseR (cl1 c) (cl2 c))
    (lblOpt : Option Int) (body : Comp) (k : Int → Comp) :
    (∀ (cfg : Config) (c : CmdTy) (arg : Int) (kk : Int → Comp) (i : Nat)
       (F : Frame) (f : Int → Int),
       cfg.cur = Comp.invoke c arg kk →
       findHandlerIdx cfg.metastack c = some i →
       cfg.metastack[i]? = some F →
       clauseLookup F c = .plainClause f →
       step cfg = .next
         { cur := kk (f arg), fin := cfg.fin,
           metastack := cfg.metastack,
           store := cfg.store ++ [Option.none],
           tail_resumption := cfg.tail_resumption,
           freshCounter := cfg.freshCounter })
    ∧ (∀ res : FinalRes,
        (∃ n, run n (initConfig (.handleC lblOpt (.mk d cl1 r) body k))
           = some res)
        ↔ (∃ n, run n (initConfig (.handleC lblOpt (.mk d cl2 r) body k))
           = some res)) := by
  constructor
  · intro cfg c arg kk i F f hcur hfind hF hclP
    unfold step
    simp only [hcur, hfind]
    exact dispatch_plain_eq hF hclP
  · intro res
    have hmsR : ∀ (lbl : Int),
        List.Forall₂ FrameR
          [⟨lbl, some (HandlerDef.mk d cl1 r), Option.none⟩,
           { init_metaframe with fiber := some (Fiber.mk k .halt true) }]
          [⟨lbl, some (HandlerDef.mk d cl2 r), Option.none⟩,
           { init_metaframe with fiber := some (Fiber.mk k .halt true) }] := by
      intro lbl
      exact List.Forall₂.cons
        ⟨rfl, OptHR.some _ _ (HandlerR.mk d cl1 cl2 r hcl), OptFibR.none⟩
        (List.Forall₂.cons (FrameR_refl _) List.Forall₂.nil)
    have hOK1 : ∀ (lbl fc : Int), ConfigOK
        { cur := body, fin := .popRet,
          metastack := [⟨lbl, some (HandlerDef.mk d cl1 r), Option.none⟩,
                        { init_metaframe with fiber := some (Fiber.mk k .halt true) }],
          store := [], tail_resumption := Option.none, freshCounter := fc } := by
      intro lbl fc
      refine ⟨rfl, ?_, ?_, ?_⟩
      · intro F hF
        simp at hF
        subst hF
        exact ⟨Fiber.mk k .halt true, rfl, rfl⟩
      · simp [sentinelAtBottom, init_metaframe]
      · intro e he
        simp at he
    have hR : ∀ (lbl fc : Int), ConfigR
        { cur := body, fin := .popRet,
          metastack := [⟨lbl, some (HandlerDef.mk d cl1 r), Option.none⟩,
                        { init_metaframe with fiber := some (Fiber.mk k .halt true) }],
          store := [], tail_resumption := Option.none, freshCounter := fc }
        { cur := body, fin := .popRet,
          metastack := [⟨lbl, some (HandlerDef.mk d cl2 r), Option.none⟩,
                        { init_metaframe with fiber := some (Fiber.mk k .halt true) }],
          store := [], tail_resumption := Option.none, freshCounter := fc } :=
      fun lbl fc =>
        ⟨rfl, FinR.popRet, hmsR lbl, List.Forall₂.nil, rfl, rfl⟩
    rcases lblOpt with _ | l
    · rw [run_shift (initConfig (.handleC Option.none (.mk d cl1 r) body k)) (
        { cur := body, fin := .popRet,
          metastack := [⟨-2, some (HandlerDef.mk d cl1 r), Option.none⟩,
                        { init_metaframe with fiber := some (Fiber.mk k .halt true) }],
          store := [], tail_resumption := Option.none, freshCounter := -2 }) rfl res]
      rw [run_shift (initConfig (.handleC Option.none (.mk d cl2 r) body k)) (
        { cur := body, fin := .popRet,
          metastack := [⟨-2, some (HandlerDef.mk d cl2 r), Option.none⟩,
                        { init_metaframe with fiber := some (Fiber.mk k .halt true) }],
          store := [], tail_resumption := Option.none, freshCounter := -2 }) rfl res]
      exact runEquiv (hR (-2) (-2)) (hOK1 (-2) (-2)) res
    · rw [run_shift (initConfig (.handleC (some l) (.mk d cl1 r) body k)) (
        { cur := body, fin := .popRet,
          metastack := [⟨l, some (HandlerDef.mk d cl1 r), Option.none⟩,
                        { init_metaframe with fiber := some (Fiber.mk k .halt true) }],
          store := [], tail_resumption := Option.none, freshCounter := -1 }) rfl res]
      rw [run_shift (initConfig (.handleC (some l) (.mk d cl2 r) body k)) (
        { cur := body, fin := .popRet,
          metastack := [⟨l, some (HandlerDef.mk d cl2 r), Option.none⟩,
                        { init_metaframe with fiber := some (Fiber.mk k .halt true) }],
          store := [], tail_resumption := Option.none, freshCounter := -1 }) rfl res]
      exact runEquiv (hR l (-1)) (hOK1 l (-1)) res

theorem C7_witness :
    (∀ (cfg : Config) (c : CmdTy) (arg : Int) (kk : Int → Comp) (i : Nat)
       (F : Frame) (f : Int → Int),
       cfg.cur = Comp.invoke c arg kk →
       findHandlerIdx cfg.metastack c = some i →
       cfg.metastack[i]? = some F →
       clauseLookup F c = .plainClause f →
       step cfg = .next
         { cur := kk (f arg), fin := cfg.fin,
           metastack := cfg.metastack,
           store := cfg.store ++ [Option.none],
           tail_resumption := cfg.tail_resumption,
           freshCounter := cfg.freshCounter })
    ∧ (∀ res : FinalRes,
        (∃ n, run n (initConfig (.handleC Option.none
          (.mk [0] (fun _ => ClauseRes.plainClause (fun x => x + 1)) (fun v => v))
          (Comp.invoke 0 41 (fun x => Comp.ret x)) (fun v => Comp.ret v)))
          = some res)
        ↔ (∃ n, run n (initConfig (.handleC Option.none
          (.mk [0] (fun _ => selfResClause (fun x => x + 1)) (fun v => v))
          (Comp.invoke 0 41 (fun x => Comp.ret x)) (fun v => Comp.ret v)))
          = some res)) :=
  C7_plain_modifier_equivalence [0]
    (fun _ => ClauseRes.plainClause (fun x => x + 1))
    (fun _ => selfResClause (fun x => x + 1))
    (fun v => v)
    (fun _ => ClauseR.variant (fun x => x + 1))
    Option.none (Comp.invoke 0 41 (fun x => Comp.ret x)) (fun v => Comp.ret v)

end CppEff
